import Mathlib

/-!
Qualificator: a shallow embedding of `include/qualificator.hpp`.

The header manipulates C++ types at compile time.  A type reachable from the
library is described here by a value: a base (the identity of an unqualified
object type), its top-level cv-qualification and its reference kind.  Packs of
types become lists, pack expansions and fold expressions over the comma
operator become left-to-right traversals, and a visitor is a state
transformer, so that "the visitor is invoked with x" is observable as the
effect of the call on the state.
-/

namespace qualificator

/-! ## Helpers (source lines 31-46) -/

/-- Verbosity tags of the source: `struct full {}` and `struct terse {}`. -/
inductive Length where
  | full
  | terse
  deriving DecidableEq, Repr

/-- Placement tags of the source: `struct east {}` and `struct west {}`. -/
inductive Direction where
  | east
  | west
  deriving DecidableEq, Repr

/-! ## C++ types up to cv-qualification and reference kind -/

/-- Top-level cv-qualification of a type. -/
inductive CV where
  | none
  | const
  | volatile
  | const_volatile
  deriving DecidableEq, Repr

/-- Reference kind of a type. -/
inductive Ref where
  | none
  | lvalue
  | rvalue
  deriving DecidableEq, Repr

/-- A C++ type as seen by the library: `cv base`, `cv base&` or `cv base&&`.
For a reference, `cv` is the qualification of the referred-to type (a
reference itself is never cv-qualified). -/
structure QType (β : Type) where
  base : β
  cv : CV
  ref : Ref
  deriving DecidableEq, Repr

/-- The unqualified, non-reference type of a base (such as the placeholder
`struct type {}` of the source). -/
def QType.plain {β : Type} (b : β) : QType β := ⟨b, CV.none, Ref.none⟩

/-- Adding `const` to a cv-qualification. -/
def CV.add_const : CV → CV
  | CV.none => CV.const
  | CV.const => CV.const
  | CV.volatile => CV.const_volatile
  | CV.const_volatile => CV.const_volatile

/-- Adding `volatile` to a cv-qualification. -/
def CV.add_volatile : CV → CV
  | CV.none => CV.volatile
  | CV.const => CV.const_volatile
  | CV.volatile => CV.volatile
  | CV.const_volatile => CV.const_volatile

/-- The standard trait `std::add_const_t`: a reference type is left unchanged,
any other type gets a top-level `const`. -/
def add_const_t {β : Type} (T : QType β) : QType β :=
  match T.ref with
  | Ref.none => { T with cv := T.cv.add_const }
  | _ => T

/-- The standard trait `std::add_volatile_t`. -/
def add_volatile_t {β : Type} (T : QType β) : QType β :=
  match T.ref with
  | Ref.none => { T with cv := T.cv.add_volatile }
  | _ => T

/-- The standard trait `std::add_cv_t`. -/
def add_cv_t {β : Type} (T : QType β) : QType β :=
  match T.ref with
  | Ref.none => { T with cv := T.cv.add_const.add_volatile }
  | _ => T

/-- The standard trait `std::add_lvalue_reference_t`, with reference
collapsing: `T& &` and `T&& &` are both `T&`. -/
def add_lvalue_reference_t {β : Type} (T : QType β) : QType β :=
  { T with ref := Ref.lvalue }

/-- The standard trait `std::add_rvalue_reference_t`, with reference
collapsing: `T& &&` is `T&`, `T&& &&` is `T&&`. -/
def add_rvalue_reference_t {β : Type} (T : QType β) : QType β :=
  match T.ref with
  | Ref.none => { T with ref := Ref.rvalue }
  | _ => T

/-! ## Pack (source lines 50-150) -/

/-- The wrapper `pack_element<I, T>`: an element of a pack together with its
position. -/
structure pack_element (α : Type) where
  index : Nat
  type : α
  deriving DecidableEq, Repr

/-- The index pack `std::index_sequence_for<Args...>`: `0, 1, ..., n-1`. -/
def index_sequence_for {α : Type} (args : List α) : List Nat :=
  List.range args.length

/-- The pack expansion `pack_element<I, Args>...` over the two parallel packs
`I...` and `Args...`. -/
def expand {α : Type} : List Nat → List α → List (pack_element α)
  | i :: is, a :: as => ⟨i, a⟩ :: expand is as
  | _, _ => []

/-- A fold expression over the comma operator, `(e1, (e2, (... , en)))`: the
operands are evaluated left to right, each acting on the state. -/
def comma_fold {σ : Type} : List (σ → σ) → σ → σ
  | [], s => s
  | e :: es, s => comma_fold es (e s)

/-- The class template `pack_base<std::index_sequence<I...>, Args...>`. -/
structure pack_base (α : Type) where
  I : List Nat
  Args : List α
  deriving DecidableEq, Repr

/-- The base classes `pack_element<I, Args>...` of a `pack_base`. -/
def pack_base.elements {α : Type} (p : pack_base α) : List (pack_element α) :=
  expand p.I p.Args

/-- Source: `static constexpr size_type size() { return sizeof...(Args); }`. -/
def pack_base.size {α : Type} (p : pack_base α) : Nat :=
  p.Args.length

/-- Source: `pack_base::for_each`,
`((void)std::forward<F>(f)(pack_element<I, Args>{}), ...)`. -/
def pack_base.for_each {α σ : Type} (p : pack_base α)
    (f : pack_element α → σ → σ) : σ → σ :=
  comma_fold ((expand p.I p.Args).map f)

/-- Source: `struct pack: pack_base<std::index_sequence_for<Args...>, Args...>`. -/
def pack {α : Type} (Args : List α) : pack_base α :=
  ⟨index_sequence_for Args, Args⟩

/-- Source: `pack_element_t<Pack, I>`, the element selected by calling the pack
with `pack_index<I>`; the call is ill-formed (here `none`) when no base has
index `I`. -/
def pack_element_t {α : Type} (p : pack_base α) (i : Nat) : Option (pack_element α) :=
  p.elements.find? (fun e => e.index == i)

/-- Source: `pack_size_v<Pack>`. -/
def pack_size_v {α : Type} (p : pack_base α) : Nat :=
  p.size

/-- Source: the alias template `make_qualified_pack<T>`. -/
def make_qualified_pack {β : Type} (T : QType β) : pack_base (QType β) :=
  pack [
    T,
    add_const_t T,
    add_volatile_t T,
    add_cv_t T,
    add_lvalue_reference_t T,
    add_lvalue_reference_t (add_const_t T),
    add_lvalue_reference_t (add_volatile_t T),
    add_lvalue_reference_t (add_cv_t T),
    add_rvalue_reference_t T,
    add_rvalue_reference_t (add_const_t T),
    add_rvalue_reference_t (add_volatile_t T),
    add_rvalue_reference_t (add_cv_t T)
  ]

/-- The class template `packs<...>::for_each(f, x...)`.  The empty
specialisation calls the visitor with the accumulated elements; the
specialisation for `packs<pack<Args...>, Packs...>` expands, for every element
of the first pack in order, a call of `packs<Packs...>::for_each` with that
element appended to the accumulated ones. -/
def packs.for_each {α σ : Type} :
    List (List α) → (List (pack_element α) → σ → σ) → List (pack_element α) → σ → σ
  | [], f, x => f x
  | Args :: Packs, f, x =>
    comma_fold ((expand (index_sequence_for Args) Args).map
      (fun e => packs.for_each Packs f (x ++ [e])))

/-! ## CV string (source lines 156-214) -/

/-- The members `value` and `exists` of a `cv_string` or `ref_string`
specialisation. -/
structure string_trait where
  value : String
  «exists» : Bool
  deriving DecidableEq, Repr

/-- The primary template of `cv_string` and its partial specialisations for
`const T`, `volatile T` and `const volatile T`, under `full` and `terse`; for a
`const volatile` type the most specialised one is selected. -/
def cv_string_object : CV → Length → string_trait
  | CV.none, _ => ⟨"", false⟩
  | CV.const, Length.full => ⟨"const", true⟩
  | CV.volatile, Length.full => ⟨"volatile", true⟩
  | CV.const_volatile, Length.full => ⟨"const volatile", true⟩
  | CV.const, Length.terse => ⟨"c", true⟩
  | CV.volatile, Length.terse => ⟨"v", true⟩
  | CV.const_volatile, Length.terse => ⟨"cv", true⟩

/-- The class template `cv_string<T, Length>`: the specialisations for `T&` and
`T&&` inherit from `cv_string` of the referred-to type. -/
def cv_string {β : Type} (T : QType β) (L : Length) : string_trait :=
  match T.ref with
  | Ref.lvalue => cv_string_object T.cv L
  | Ref.rvalue => cv_string_object T.cv L
  | Ref.none => cv_string_object T.cv L

/-! ## Ref string (source lines 218-238) -/

/-- The class template `ref_string<T, Length>`. -/
def ref_string {β : Type} (T : QType β) (_L : Length) : string_trait :=
  match T.ref with
  | Ref.lvalue => ⟨"&", true⟩
  | Ref.rvalue => ⟨"&&", true⟩
  | Ref.none => ⟨"", false⟩

/-! ## Stringify (source lines 243-305) -/

/-- The constructor of `stringify<T, Length, Direction>`, returning the
`_value` it builds; every `_value += s` of the source is one `++ s` here. -/
def stringify {β : Type} (T : QType β) (L : Length) (D : Direction)
    (name : String) : String :=
  let _value := ""
  if name.isEmpty then
    let _value := _value ++ (cv_string T L).value
    let _value :=
      if (cv_string T L).exists && (ref_string T L).exists then _value ++ "" else _value
    let _value := _value ++ (ref_string T L).value
    _value
  else
    if D = Direction.east then
      let _value := _value ++ name
      if (cv_string T L).exists || (ref_string T L).exists then
        let _value := _value ++ " "
        let _value := _value ++ (cv_string T L).value
        let _value :=
          if (cv_string T L).exists && (ref_string T L).exists then _value ++ " " else _value
        let _value := _value ++ (ref_string T L).value
        _value
      else
        _value
    else
      let _value :=
        if (cv_string T L).exists then
          let _value := _value ++ (cv_string T L).value
          let _value := _value ++ " "
          _value
        else
          _value
      let _value := _value ++ name
      let _value :=
        if (ref_string T L).exists then
          let _value := _value ++ ""
          let _value := _value ++ (ref_string T L).value
          _value
        else
          _value
      _value

/-- The expression `stringify<type>{}()` with the defaults of the source:
`Length = full`, `Direction = west`, `name = "T"`. -/
def stringify_default {β : Type} (T : QType β) : String :=
  stringify T Length.full Direction.west "T"

/-! ## Texcolor (source lines 319-390) -/

/-- The class template `texcolor<T>` and its eleven partial specialisations. -/
def texcolor {β : Type} (T : QType β) : String :=
  match T.ref, T.cv with
  | Ref.none, CV.none => "blue!20"
  | Ref.none, CV.const => "blue!40"
  | Ref.none, CV.volatile => "blue!60"
  | Ref.none, CV.const_volatile => "blue!80"
  | Ref.lvalue, CV.none => "green!20"
  | Ref.lvalue, CV.const => "green!40"
  | Ref.lvalue, CV.volatile => "green!60"
  | Ref.lvalue, CV.const_volatile => "green!80"
  | Ref.rvalue, CV.none => "red!20"
  | Ref.rvalue, CV.const => "red!40"
  | Ref.rvalue, CV.volatile => "red!60"
  | Ref.rvalue, CV.const_volatile => "red!80"

/-! ## Texcell (source lines 395-432) -/

/-- Source: `texrotate(int x, const std::string& text)`. -/
def texrotate (x : Int) (text : String) : String :=
  let pre := "\\rotatebox[origin = c]\x7b" ++ toString x ++ "\x7d"
  pre ++ "\x7b\\hphantom\x7b\\ \x7d" ++ text ++ "\\hphantom\x7b\\ \x7d\x7d"

/-- Source: `texcellcolor(const std::string& color)`. -/
def texcellcolor (color : String) : String :=
  "\\cellcolor\x7b" ++ color ++ "\x7d"

/-- Source: `texcell(const std::string& code)`. -/
def texcell (code : String) : String :=
  if code.isEmpty then code else "\\lstinline!" ++ code ++ "!"

/-- Source: `texcell(const std::string& code, const std::string& color)`. -/
def texcell_colored (code : String) (color : String) : String :=
  texcellcolor color ++ texcell code

/-- Source: `texcell(int x, const std::string& code)`. -/
def texcell_rotated (x : Int) (code : String) : String :=
  texrotate x (texcell code)

/-- Source: `texcell(int x, const std::string& code, const std::string& color)`. -/
def texcell_rotated_colored (x : Int) (code : String) (color : String) : String :=
  texcellcolor color ++ texrotate x (texcell code)

/-- Source: `texcell(bool condition)`. -/
def texcell_bool (condition : Bool) : String :=
  let color := if condition then "green" else "red"
  let text := if condition then "true" else "false"
  texcellcolor color ++ texcell text

/-- A call `texcell("...")` whose argument is a string literal.  The overloads
with one parameter take `const std::string&` and `bool`; for an argument of
type `const char[N]` the conversion to `bool` (array to pointer, then boolean)
is a standard conversion and is preferred to the user-defined conversion to
`std::string`, so the call is to `texcell(bool)`, with `true` since the
pointer to a literal is not null.  The text of the literal is not used. -/
def texcell_literal (_literal : String) : String :=
  texcell_bool true

/-! ## Texify (source lines 437-606) -/

/-- Source: `texify_base::prefix()`, the fixed text opening the document. -/
def texify_base.document_begin : String :=
  let endl := "\n"
  ""
  ++ "\\documentclass\x7bstandalone\x7d" ++ endl
  ++ "\\usepackage\x7barray\x7d" ++ endl
  ++ "\\usepackage\x7bgraphicx\x7d" ++ endl
  ++ "\\usepackage\x7blistings\x7d" ++ endl
  ++ "\\usepackage\x7btabularx\x7d" ++ endl
  ++ "\\usepackage[table]\x7bxcolor\x7d" ++ endl
  ++ "\\usepackage[tt = false]\x7blibertine\x7d" ++ endl
  ++ "\\lstset\x7b"
  ++ "showstringspaces = false, "
  ++ "basicstyle = \\ttfamily, "
  ++ "breaklines = true"
  ++ "\x7d"
  ++ "\\begin\x7bdocument\x7d" ++ endl

/-- Source: `texify_base::postfix()`, the fixed text closing the document. -/
def texify_base.document_end : String :=
  let endl := "\n"
  ""
  ++ "\\end\x7bdocument\x7d" ++ endl

/-- The visitor of the one-sequence `texify` constructor (source lines
527-538), acting on the accumulated text `tex`.  A call with another number of
elements than one is ill-formed in the source and leaves the text alone here. -/
def texify_one.visitor {β : Type} (f : pack_element (QType β) → String)
    (colored : String) (xs : List (pack_element (QType β))) (tex : String) : String :=
  match xs with
  | [x] =>
    let endl := "\n"
    let tex :=
      if colored.isEmpty then
        tex ++ texcell_colored (stringify_default x.type) (texcolor x.type)
      else
        tex ++ texcell_colored (stringify_default x.type) colored
    let tex := tex ++ " & "
    let tex := tex ++ f x
    let tex := tex ++ "\\\\ \\hline"
    let tex := tex ++ endl
    tex
  | _ => tex

/-- The constructor of `texify<pack<Args...>>` (source lines 514-542),
returning the `_tex` it stores.  At line 525 `texcell` is called with the
string literal `"decltype(T)"`, which selects the overload `texcell(bool)`;
at line 526 it is called with the `std::string` `name`. -/
def texify_one {β : Type} (Args : List (QType β)) (name : String)
    (f : pack_element (QType β) → String) (colored : String) : String :=
  let endl := "\n"
  let tex := ""
  let tex := tex ++ texify_base.document_begin
  let tex := tex ++ ("\\begin\x7btabular\x7d\x7b|l||c|\x7d" ++ endl)
  let tex := tex ++ ("\\hline" ++ endl)
  let tex := tex ++ ("\\multicolumn\x7b1\x7d\x7b|c||\x7d\x7b" ++ texcell_literal "decltype(T)" ++ "\x7d & ")
  let tex := tex ++ (texcell name ++ "\\\\ \\hline \\hline")
  let tex := packs.for_each [Args] (texify_one.visitor f colored) [] tex
  let tex := tex ++ ("\\end\x7btabular\x7d" ++ endl)
  let tex := tex ++ texify_base.document_end
  tex

/-- The first visitor of the two-sequence constructor (source line 562): one
column specifier per column element. -/
def texify_two.visitor_spec {β : Type} (xs : List (pack_element (QType β)))
    (tex : String) : String :=
  match xs with
  | [_] => tex ++ "c|"
  | _ => tex

/-- The second visitor of the two-sequence constructor (source lines 566-574):
one rotated, colored header cell per column element. -/
def texify_two.visitor_columns {β : Type} (colored : String)
    (xs : List (pack_element (QType β))) (tex : String) : String :=
  match xs with
  | [x] =>
    if colored.isEmpty then
      tex ++ (" & " ++ texcell_rotated_colored 90 (stringify_default x.type) (texcolor x.type))
    else
      tex ++ (" & " ++ texcell_rotated_colored 90 (stringify_default x.type) colored)
  | _ => tex

/-- The third visitor of the two-sequence constructor (source lines 576-591),
called with a row element and a column element; `n1` is `sizeof...(Args1)`.
The sum `column.index + 1` is taken in `std::size_t`; an index is below the
size of a pack, so the sum does not wrap and is the sum of naturals. -/
def texify_two.visitor_cells {β : Type} (n1 : Nat)
    (f : pack_element (QType β) → pack_element (QType β) → String)
    (colored : String) (xs : List (pack_element (QType β))) (tex : String) : String :=
  match xs with
  | [row, column] =>
    let endl := "\n"
    let tex :=
      if column.index = 0 then
        if colored.isEmpty then
          tex ++ texcell_colored (stringify_default row.type) (texcolor row.type)
        else
          tex ++ texcell_colored (stringify_default row.type) colored
      else
        tex
    let tex := tex ++ " & "
    let tex := tex ++ f row column
    let tex :=
      if column.index + 1 = n1 then
        let tex := tex ++ "\\\\ \\hline"
        let tex := tex ++ endl
        tex
      else
        tex
    tex
  | _ => tex

/-- The constructor of `texify<pack<Args0...>, pack<Args1...>>` (source lines
550-595), returning the `_tex` it stores. -/
def texify_two {β : Type} (Args0 Args1 : List (QType β)) (name : String)
    (f : pack_element (QType β) → pack_element (QType β) → String)
    (colored : String) : String :=
  let endl := "\n"
  let tex := ""
  let tex := tex ++ texify_base.document_begin
  let tex := tex ++ "\\begin\x7btabular\x7d\x7b|l||"
  let tex := packs.for_each [Args1] texify_two.visitor_spec [] tex
  let tex := tex ++ ("\x7d" ++ endl)
  let tex := tex ++ ("\\hline" ++ endl)
  let tex := tex ++ ("\\multicolumn\x7b1\x7d\x7b|c||\x7d\x7b" ++ texcell name ++ "\x7d")
  let tex := packs.for_each [Args1] (texify_two.visitor_columns colored) [] tex
  let tex := tex ++ ("\\\\ \\hline \\hline" ++ endl)
  let tex := packs.for_each [Args0, Args1]
    (texify_two.visitor_cells Args1.length f colored) [] tex
  let tex := tex ++ ("\\end\x7btabular\x7d" ++ endl)
  let tex := tex ++ texify_base.document_end
  tex

/-! ## Vocabulary of the specification -/

/-- A qualifier of the specification: a cv-qualification crossed with a
reference kind. -/
structure Qualifier where
  cv : CV
  ref : Ref
  deriving DecidableEq, Repr

/-- The qualifier a type carries. -/
def QType.qualifier {β : Type} (T : QType β) : Qualifier := ⟨T.cv, T.ref⟩

/-- The fixed order of the specification: none, const, volatile,
const-volatile, then the same four as lvalue-reference, then the same four as
rvalue-reference. -/
def fixed_order : List Qualifier :=
  [ ⟨CV.none, Ref.none⟩, ⟨CV.const, Ref.none⟩,
    ⟨CV.volatile, Ref.none⟩, ⟨CV.const_volatile, Ref.none⟩,
    ⟨CV.none, Ref.lvalue⟩, ⟨CV.const, Ref.lvalue⟩,
    ⟨CV.volatile, Ref.lvalue⟩, ⟨CV.const_volatile, Ref.lvalue⟩,
    ⟨CV.none, Ref.rvalue⟩, ⟨CV.const, Ref.rvalue⟩,
    ⟨CV.volatile, Ref.rvalue⟩, ⟨CV.const_volatile, Ref.rvalue⟩ ]

/-- The visitor that records, in order, every element it is called with. -/
def record {α : Type} (x : α) (log : List α) : List α := log ++ [x]

/-- The calls a one-sequence traversal makes: the elements the visitor
receives, in order of invocation. -/
def pack_base.calls {α : Type} (p : pack_base α) : List (pack_element α) :=
  p.for_each record []

/-- The calls a cross-product traversal makes: the argument lists the visitor
receives, in order of invocation. -/
def packs.calls {α : Type} (ps : List (List α)) : List (List (pack_element α)) :=
  packs.for_each ps record [] []

/-- The index of the `j`-th element a call received (0 when there is none). -/
def call_index {α : Type} (xs : List (pack_element α)) (j : Nat) : Nat :=
  ((xs.map pack_element.index)[j]?).getD 0

/-- The cross product of the specification in row-major order: every way of
extending the accumulated elements `x` by one element of each sequence, the
last sequence varying fastest. -/
def packs.tuples {α : Type} :
    List (List α) → List (pack_element α) → List (List (pack_element α))
  | [], x => [x]
  | Args :: Packs, x => (pack Args).elements.flatMap (fun e => packs.tuples Packs (x ++ [e]))

/-- The row terminator of a table: `\\ \hline` and a newline. -/
def row_end : String := "\\\\ \\hline" ++ "\n"

/-- The header cell of an element: its type rendered with west placement, full
verbosity and the name `T`, as a code cell colored with the override when
there is one and with the color of the type otherwise. -/
def header_cell {β : Type} (colored : String) (e : pack_element (QType β)) : String :=
  texcell_colored (stringify e.type Length.full Direction.west "T")
    (if colored.isEmpty then texcolor e.type else colored)

/-- The text of the one-sequence table before its header row. -/
def texify_one.table_begin : String :=
  "\\begin\x7btabular\x7d\x7b|l||c|\x7d" ++ "\n" ++ ("\\hline" ++ "\n")

/-- The first cell of the header row of the one-sequence table, as the code
emits it: a centered one-column `multicolumn` holding the cell of the boolean
`true`, colored green. -/
def texify_one.header_first : String :=
  "\\multicolumn\x7b1\x7d\x7b|c||\x7d\x7b"
    ++ (texcellcolor "green" ++ texcell "true") ++ "\x7d"

/-- The header row of the one-sequence table: two cells, a separator between
them, and the end of the row. -/
def texify_one.header_row (name : String) : String :=
  texify_one.header_first ++ " & " ++ texcell name ++ "\\\\ \\hline \\hline"

/-- A data row of the one-sequence table, as the specification describes it. -/
def texify_one.data_row {β : Type} (f : pack_element (QType β) → String)
    (colored : String) (e : pack_element (QType β)) : String :=
  header_cell colored e ++ " & " ++ f e ++ row_end

/-- The closing line of a table. -/
def table_end : String := "\\end\x7btabular\x7d" ++ "\n"

/-- The text of the two-sequence table before its body: the column
specification and the header row, one rotated header cell per column. -/
def texify_two.table_head {β : Type} (Args1 : List (QType β)) (name : String)
    (colored : String) : String :=
  "\\begin\x7btabular\x7d\x7b|l||"
    ++ String.join ((pack Args1).elements.map (fun _ => "c|"))
    ++ ("\x7d" ++ "\n")
    ++ ("\\hline" ++ "\n")
    ++ ("\\multicolumn\x7b1\x7d\x7b|c||\x7d\x7b" ++ texcell name ++ "\x7d")
    ++ String.join ((pack Args1).elements.map (fun c =>
        " & " ++ texcell_rotated_colored 90 (stringify c.type Length.full Direction.west "T")
          (if colored.isEmpty then texcolor c.type else colored)))
    ++ ("\\\\ \\hline \\hline" ++ "\n")

/-- A row of the two-sequence table, as the specification describes it: the
header cell of the row, then a separator and a cell per column, then the row
terminator. -/
def texify_two.data_row {β : Type} (Args1 : List (QType β))
    (f : pack_element (QType β) → pack_element (QType β) → String)
    (colored : String) (row : pack_element (QType β)) : String :=
  header_cell colored row
    ++ String.join ((pack Args1).elements.map (fun column => " & " ++ f row column))
    ++ row_end

/-- What one call of the third visitor of the two-sequence constructor appends. -/
def texify_two.piece {β : Type} (n1 : Nat)
    (f : pack_element (QType β) → pack_element (QType β) → String)
    (colored : String) (row column : pack_element (QType β)) : String :=
  (if column.index = 0 then header_cell colored row else "")
    ++ (" & " ++ f row column)
    ++ (if column.index + 1 = n1 then row_end else "")

/-- The cells of a table row: the pieces between the separators ` & `. -/
def split_cells : List Char → List Char → List (List Char)
  | [], acc => [acc.reverse]
  | ' ' :: '&' :: ' ' :: rest, acc => acc.reverse :: split_cells rest []
  | c :: rest, acc => split_cells rest (c :: acc)

/-- The cells of a table row given as a string. -/
def cells_of (s : String) : List String :=
  (split_cells s.data []).map String.mk

/-- The number of occurrences of a pattern in a text: the positions of the
text at which the pattern starts. -/
def occurrences (pat : List Char) : List Char → Nat
  | [] => 0
  | c :: s => (if pat <+: c :: s then 1 else 0) + occurrences pat s

/-- The number of occurrences of a pattern in a string. -/
def count_in (pat s : String) : Nat := occurrences pat.data s.data

/-- The text that opens a colored cell, `\cellcolor` and an opening brace: in the
body of a table it marks a row header. -/
def header_mark : String := "\\cellcolor\x7b"

/-- The one-sequence document as a function of the coloring `col` of the
header cells of the elements: the color enters only as the argument of their
`texcellcolor`.  The header row does not depend on it. -/
def texify_one.layout {β : Type} (col : QType β → String) (Args : List (QType β))
    (name : String) (f : pack_element (QType β) → String) : String :=
  texify_base.document_begin
    ++ texify_one.table_begin
    ++ texify_one.header_row name
    ++ String.join ((pack Args).elements.map (fun e =>
        texcellcolor (col e.type)
          ++ texcell (stringify e.type Length.full Direction.west "T")
          ++ " & " ++ f e ++ row_end))
    ++ table_end
    ++ texify_base.document_end

/-- The two-sequence document as a function of the coloring `col` of the
header cells: the color enters only as the argument of `texcellcolor`, in the
column headers and in the row headers. -/
def texify_two.layout {β : Type} (col : QType β → String) (Args0 Args1 : List (QType β))
    (name : String) (f : pack_element (QType β) → pack_element (QType β) → String) :
    String :=
  texify_base.document_begin
    ++ ("\\begin\x7btabular\x7d\x7b|l||"
        ++ String.join ((pack Args1).elements.map (fun _ => "c|"))
        ++ ("\x7d" ++ "\n")
        ++ ("\\hline" ++ "\n")
        ++ ("\\multicolumn\x7b1\x7d\x7b|c||\x7d\x7b" ++ texcell name ++ "\x7d")
        ++ String.join ((pack Args1).elements.map (fun column =>
            " & " ++ (texcellcolor (col column.type)
              ++ texrotate 90 (texcell (stringify column.type Length.full Direction.west "T")))))
        ++ ("\\\\ \\hline \\hline" ++ "\n"))
    ++ String.join ((pack Args0).elements.map (fun row =>
        String.join ((pack Args1).elements.map (fun column =>
          (if column.index = 0 then
              texcellcolor (col row.type)
                ++ texcell (stringify row.type Length.full Direction.west "T")
            else "")
            ++ (" & " ++ f row column)
            ++ (if column.index + 1 = Args1.length then row_end else "")))))
    ++ table_end
    ++ texify_base.document_end

/-! ## Theorems -/

/-- C1: for every type `T` the pack `make_qualified_pack T` has size 12 and
twelve elements, the element at position `i` carrying index `i`; and for every
base `b`, the element at position `i` of the pack made from the unqualified
type of `b` is `b` under the qualifier at position `i` of the fixed order
(none, const, volatile, const-volatile, the same four as lvalue-reference, the
same four as rvalue-reference), the twelve qualifiers being distinct. -/
theorem make_qualified_pack_fixed_order {β : Type} (T : QType β) (b : β) :
    (make_qualified_pack T).size = 12
    ∧ pack_size_v (make_qualified_pack T) = 12
    ∧ (make_qualified_pack T).elements.length = 12
    ∧ (make_qualified_pack T).elements.map pack_element.index = List.range 12
    ∧ fixed_order.length = 12
    ∧ fixed_order.Nodup
    ∧ (make_qualified_pack (QType.plain b)).elements.map
        (fun e => (e.index, e.type.base, e.type.qualifier))
        = fixed_order.enum.map (fun iq => (iq.1, b, iq.2))
    ∧ (∀ i : Fin 12,
        ((make_qualified_pack (QType.plain b)).elements[i.val]?).map
            (fun e => (e.index, e.type.base, e.type.qualifier))
          = (fixed_order[i.val]?).map (fun q => (i.val, b, q))
        ∧ (pack_element_t (make_qualified_pack (QType.plain b)) i.val).map
            (fun e => (e.index, e.type.base, e.type.qualifier))
          = (fixed_order[i.val]?).map (fun q => (i.val, b, q))) := by
  refine ⟨rfl, rfl, rfl, rfl, rfl, by decide, rfl, ?_⟩
  intro i
  fin_cases i <;> exact ⟨rfl, rfl⟩

/-- A string different from the empty string is not `empty()`. -/
theorem isEmpty_eq_false_of_ne {s : String} (h : s ≠ "") : s.isEmpty = false := by
  cases hs : s.isEmpty with
  | false => rfl
  | true => exact absurd ((String.isEmpty_iff s).1 hs) h

/-- The qualifier word exists exactly for a cv-qualified type. -/
theorem cv_string_exists_iff {β : Type} (T : QType β) (L : Length) :
    (cv_string T L).exists = true ↔ T.cv ≠ CV.none := by
  obtain ⟨b, cv, ref⟩ := T
  cases cv <;> cases ref <;> cases L <;> simp [cv_string, cv_string_object]

/-- The reference marker exists exactly for a reference type. -/
theorem ref_string_exists_iff {β : Type} (T : QType β) (L : Length) :
    (ref_string T L).exists = true ↔ T.ref ≠ Ref.none := by
  obtain ⟨b, cv, ref⟩ := T
  cases ref <;> simp [ref_string]

/-- C2: for every type, verbosity and non-empty name, `stringify` with west
placement returns the qualifier word followed by one space (only if the type
is cv-qualified), then the name, then the reference marker with no space
before it (only if the type is a reference); and the word directly followed by
the marker is what `stringify` returns for the same type and verbosity with
the empty name. -/
theorem stringify_west_layout {β : Type} (T : QType β) (L : Length) (name : String)
    (hname : name ≠ "") :
    stringify T L Direction.west name
      = (if T.cv ≠ CV.none then (cv_string T L).value ++ " " else "")
        ++ name
        ++ (if T.ref ≠ Ref.none then (ref_string T L).value else "")
    ∧ (cv_string T L).value ++ (ref_string T L).value = stringify T L Direction.west "" := by
  have hne := isEmpty_eq_false_of_ne hname
  obtain ⟨b, cv, ref⟩ := T
  constructor
  · cases cv <;> cases ref <;> cases L <;>
      simp [stringify, hne, cv_string, cv_string_object, ref_string]
  · cases cv <;> cases ref <;> cases L <;> rfl

/-- A witness of C2: `const T&` in full, with the name `T`. -/
theorem stringify_west_layout_witness :
    ("T" : String) ≠ ""
    ∧ stringify (⟨(), CV.const, Ref.lvalue⟩ : QType Unit) Length.full Direction.west "T"
        = "const T&"
    ∧ stringify (⟨(), CV.const, Ref.lvalue⟩ : QType Unit) Length.full Direction.west ""
        = "const&" :=
  ⟨by decide,
   (stringify_west_layout (⟨(), CV.const, Ref.lvalue⟩ : QType Unit) Length.full "T"
      (by decide)).1.trans (by decide),
   (stringify_west_layout (⟨(), CV.const, Ref.lvalue⟩ : QType Unit) Length.full "T"
      (by decide)).2.symm.trans (by decide)⟩

/-- C3: for every type, verbosity and non-empty name, `stringify` with east
placement returns the name, then one space (only if the type is cv-qualified or
a reference), then the qualifier word, then one space (only if the type is both
cv-qualified and a reference), then the reference marker; a reference to an
unqualified type renders as the name, one space and the marker. -/
theorem stringify_east_layout {β : Type} (T : QType β) (L : Length) (name : String)
    (hname : name ≠ "") :
    stringify T L Direction.east name
      = name
        ++ (if T.cv ≠ CV.none ∨ T.ref ≠ Ref.none then " " else "")
        ++ (cv_string T L).value
        ++ (if T.cv ≠ CV.none ∧ T.ref ≠ Ref.none then " " else "")
        ++ (ref_string T L).value
    ∧ ((cv_string T L).value = "" ↔ T.cv = CV.none)
    ∧ ((ref_string T L).value = "" ↔ T.ref = Ref.none)
    ∧ (T.cv = CV.none → T.ref ≠ Ref.none →
        stringify T L Direction.east name = name ++ " " ++ (ref_string T L).value) := by
  have hne := isEmpty_eq_false_of_ne hname
  obtain ⟨b, cv, ref⟩ := T
  refine ⟨?_, ?_, ?_, ?_⟩
  · cases cv <;> cases ref <;> cases L <;>
      simp [stringify, hne, cv_string, cv_string_object, ref_string, String.append_assoc]
  · cases cv <;> cases ref <;> cases L <;> simp [cv_string, cv_string_object]
  · cases ref <;> simp [ref_string]
  · intro hcv href
    simp only at hcv href
    subst hcv
    cases ref <;> cases L <;>
      simp_all [stringify, hne, cv_string, cv_string_object, ref_string]

/-- A witness of C3: the lvalue reference to an unqualified type, with the
name `T`, renders as `T &`. -/
theorem stringify_east_layout_witness :
    ("T" : String) ≠ ""
    ∧ stringify (⟨(), CV.none, Ref.lvalue⟩ : QType Unit) Length.full Direction.east "T"
        = "T &" :=
  ⟨by decide,
   (stringify_east_layout (⟨(), CV.none, Ref.lvalue⟩ : QType Unit) Length.full "T"
      (by decide)).1.trans (by decide)⟩

/-- C4: for every type, verbosity and placement, `stringify` with the empty
name returns the qualifier word directly followed by the reference marker, no
character in between, and east and west placement give the same string. -/
theorem stringify_empty_name {β : Type} (T : QType β) (L : Length) (D : Direction) :
    stringify T L D "" = (cv_string T L).value ++ (ref_string T L).value
    ∧ stringify T L Direction.east "" = stringify T L Direction.west ""
    ∧ (stringify T L D "").length
        = (cv_string T L).value.length + (ref_string T L).value.length := by
  obtain ⟨b, cv, ref⟩ := T
  cases cv <;> cases ref <;> cases L <;> cases D <;> exact ⟨rfl, rfl, rfl⟩

/-- C10: for every reference to an unqualified type, `stringify` in full with
west placement and the name `T` is `T` directly followed by the reference
marker: `T&` for an lvalue reference, `T&&` for an rvalue reference. -/
theorem stringify_west_reference_only {β : Type} (T : QType β)
    (hcv : T.cv = CV.none) (href : T.ref ≠ Ref.none) :
    stringify T Length.full Direction.west "T" = "T" ++ (ref_string T Length.full).value
    ∧ (T.ref = Ref.lvalue → stringify T Length.full Direction.west "T" = "T&")
    ∧ (T.ref = Ref.rvalue → stringify T Length.full Direction.west "T" = "T&&") := by
  obtain ⟨b, cv, ref⟩ := T
  simp only at hcv href
  subst hcv
  cases ref
  · exact absurd rfl href
  · exact ⟨rfl, fun _ => rfl, fun h => Ref.noConfusion h⟩
  · exact ⟨rfl, fun h => Ref.noConfusion h, fun _ => rfl⟩

/-- A witness of C10: the rvalue reference to an unqualified type. -/
theorem stringify_west_reference_only_witness :
    (⟨(), CV.none, Ref.rvalue⟩ : QType Unit).cv = CV.none
    ∧ (⟨(), CV.none, Ref.rvalue⟩ : QType Unit).ref ≠ Ref.none
    ∧ stringify (⟨(), CV.none, Ref.rvalue⟩ : QType Unit) Length.full Direction.west "T"
        = "T&&" :=
  ⟨rfl, by decide,
   (stringify_west_reference_only (⟨(), CV.none, Ref.rvalue⟩ : QType Unit) rfl
      (by decide)).2.2 rfl⟩

/-! ### Traversals -/

/-- A comma fold over mapped operands is a left fold. -/
theorem comma_fold_map {α σ : Type} (g : α → σ → σ) (l : List α) (s : σ) :
    comma_fold (l.map g) s = l.foldl (fun s e => g e s) s := by
  induction l generalizing s with
  | nil => rfl
  | cons a l ih => simp [comma_fold, ih]

/-- Recording along a left fold appends the list to the log. -/
theorem foldl_record {α : Type} (l log : List α) :
    l.foldl (fun s e => record e s) log = log ++ l := by
  induction l generalizing log with
  | nil => simp
  | cons a l ih =>
    rw [List.foldl_cons, ih]
    simp [record]

/-- The expansion over consecutive indices starting at `k`: entry `j` pairs
index `k + j` with the `j`-th argument. -/
theorem expand_range_getElem? {α : Type} (as : List α) (k j : Nat) :
    (expand (List.range' k as.length) as)[j]? = (as[j]?).map (fun a => ⟨k + j, a⟩) := by
  induction as generalizing k j with
  | nil => simp [expand]
  | cons a as ih =>
    cases j with
    | zero => simp [expand, List.range'_succ]
    | succ j =>
      simp only [List.length_cons, List.range'_succ, expand, List.getElem?_cons_succ]
      rw [ih (k + 1) j]
      congr 1
      funext x
      congr 1
      omega

/-- The expansion over consecutive indices has one element per argument. -/
theorem expand_range_length {α : Type} (as : List α) (k : Nat) :
    (expand (List.range' k as.length) as).length = as.length := by
  induction as generalizing k with
  | nil => simp [expand]
  | cons a as ih => simp [expand, List.range'_succ, ih]

/-- The elements of a pack: entry `j` pairs index `j` with the `j`-th argument. -/
theorem pack_elements_getElem? {α : Type} (Args : List α) (j : Nat) :
    (pack Args).elements[j]? = (Args[j]?).map (fun a => ⟨j, a⟩) := by
  have h := expand_range_getElem? Args 0 j
  simpa [pack, pack_base.elements, index_sequence_for, List.range_eq_range'] using h

/-- A pack has as many elements as arguments. -/
theorem pack_elements_length {α : Type} (Args : List α) :
    (pack Args).elements.length = Args.length := by
  have h := expand_range_length Args 0
  simpa [pack, pack_base.elements, index_sequence_for, List.range_eq_range'] using h

/-- The indices of the elements of a pack are `0, 1, ..., n-1`. -/
theorem pack_elements_index {α : Type} (Args : List α) :
    (pack Args).elements.map pack_element.index = List.range Args.length := by
  apply List.ext_getElem?
  intro j
  rw [List.getElem?_map, pack_elements_getElem?]
  by_cases hj : j < Args.length
  · rw [List.getElem?_range hj, List.getElem?_eq_getElem hj]
    rfl
  · rw [List.getElem?_eq_none (by simpa using hj),
      List.getElem?_eq_none (by simpa using hj)]
    rfl

/-- The types of the elements of a pack are its arguments. -/
theorem pack_elements_type {α : Type} (Args : List α) :
    (pack Args).elements.map pack_element.type = Args := by
  apply List.ext_getElem?
  intro j
  rw [List.getElem?_map, pack_elements_getElem?]
  cases Args[j]? <;> rfl

/-- A one-sequence traversal is the left fold of the visitor over the elements. -/
theorem pack_for_each_eq_foldl {α σ : Type} (p : pack_base α)
    (f : pack_element α → σ → σ) (s : σ) :
    p.for_each f s = p.elements.foldl (fun s e => f e s) s := by
  simp [pack_base.for_each, pack_base.elements, comma_fold_map]

/-- The calls of a one-sequence traversal are the elements, in order. -/
theorem pack_calls_eq_elements {α : Type} (p : pack_base α) : p.calls = p.elements := by
  simp [pack_base.calls, pack_for_each_eq_foldl, foldl_record]

/-- A cross-product traversal is the left fold of the visitor over the tuples
of the cross product in row-major order. -/
theorem packs_for_each_eq_foldl {α σ : Type} (ps : List (List α))
    (f : List (pack_element α) → σ → σ) (x : List (pack_element α)) (s : σ) :
    packs.for_each ps f x s = (packs.tuples ps x).foldl (fun s xs => f xs s) s := by
  induction ps generalizing x s with
  | nil => simp [packs.for_each, packs.tuples]
  | cons Args Packs ih =>
    simp only [packs.for_each, packs.tuples, pack_base.elements, pack]
    generalize expand (index_sequence_for Args) Args = l
    induction l generalizing s with
    | nil => simp [comma_fold]
    | cons e l ihl =>
      simp only [List.map_cons, comma_fold, List.flatMap_cons, List.foldl_append]
      rw [ihl, ih]

/-- The calls of a cross-product traversal are the tuples of the cross product. -/
theorem packs_calls_eq_tuples {α : Type} (ps : List (List α)) :
    packs.calls ps = packs.tuples ps [] := by
  simp [packs.calls, packs_for_each_eq_foldl, foldl_record]

/-- Mapping to singletons and flattening is mapping. -/
theorem flatMap_singleton_map {α β : Type} (l : List α) (g : α → β) :
    l.flatMap (fun c => [g c]) = l.map g := by
  induction l with
  | nil => rfl
  | cons a l ih => simp [List.flatMap_cons, ih]

/-- Flattening blocks of equal length `N`: the length is `N` per block. -/
theorem flatMap_length_of_const {α β : Type} (l : List α) (g : α → List β) (N : Nat)
    (hg : ∀ a, (g a).length = N) : (l.flatMap g).length = l.length * N := by
  induction l with
  | nil => simp
  | cons a l ih => simp [List.flatMap_cons, ih, hg, Nat.succ_mul, Nat.add_comm]

/-- Flattening blocks of equal length `N`: entry `k` is entry `k % N` of block
`k / N`. -/
theorem flatMap_getElem?_of_const {α β : Type} (l : List α) (g : α → List β) (N : Nat)
    (hN : 0 < N) (hg : ∀ a, (g a).length = N) (k : Nat) :
    (l.flatMap g)[k]? = (l[k / N]?).bind (fun a => (g a)[k % N]?) := by
  induction l generalizing k with
  | nil => simp
  | cons a l ih =>
    rw [List.flatMap_cons]
    by_cases hk : k < N
    · rw [List.getElem?_append_left (by rw [hg]; exact hk)]
      simp [Nat.div_eq_of_lt hk, Nat.mod_eq_of_lt hk]
    · obtain ⟨j, rfl⟩ := Nat.exists_eq_add_of_le (Nat.le_of_not_lt hk)
      rw [List.getElem?_append_right (by rw [hg]; omega), hg, Nat.add_sub_cancel_left, ih j,
        Nat.add_div_left j hN, Nat.add_mod_left]
      simp

/-- The calls of a two-sequence traversal: for each row element in order,
each column element in order. -/
theorem packs_calls_two {α : Type} (Args0 Args1 : List α) :
    packs.calls [Args0, Args1]
      = (pack Args0).elements.flatMap
          (fun row => (pack Args1).elements.map (fun column => [row, column])) := by
  rw [packs_calls_eq_tuples]
  simp only [packs.tuples, List.nil_append, List.singleton_append]
  congr 1
  funext row
  exact flatMap_singleton_map _ _

/-- The number of calls of a two-sequence traversal. -/
theorem packs_calls_two_length {α : Type} (Args0 Args1 : List α) :
    (packs.calls [Args0, Args1]).length = Args0.length * Args1.length := by
  rw [packs_calls_two, flatMap_length_of_const _ _ Args1.length, pack_elements_length]
  intro a
  rw [List.length_map, pack_elements_length]

/-- The `k`-th call of a two-sequence traversal. -/
theorem packs_calls_two_getElem? {α : Type} (Args0 Args1 : List α) (k : Nat) :
    (packs.calls [Args0, Args1])[k]?
      = (Args0[k / Args1.length]?).bind (fun a =>
          (Args1[k % Args1.length]?).map (fun b =>
            [⟨k / Args1.length, a⟩, ⟨k % Args1.length, b⟩])) := by
  rcases Nat.eq_zero_or_pos Args1.length with h0 | hpos
  · have hnil : Args1 = [] := List.length_eq_zero.mp h0
    subst hnil
    have hlen := packs_calls_two_length Args0 ([] : List α)
    rw [List.getElem?_eq_none (by rw [hlen]; simp)]
    cases Args0[k / ([] : List α).length]? <;> simp
  · rw [packs_calls_two,
      flatMap_getElem?_of_const _ _ Args1.length hpos
        (fun a => by rw [List.length_map, pack_elements_length]),
      pack_elements_getElem?]
    cases Args0[k / Args1.length]? with
    | none => rfl
    | some a =>
      simp only [Option.map_some', Option.some_bind, List.getElem?_map, pack_elements_getElem?]
      cases Args1[k % Args1.length]? <;> rfl

/-- The index pairs of the calls of a two-sequence traversal, in order. -/
theorem packs_calls_two_index {α : Type} (Args0 Args1 : List α) :
    (packs.calls [Args0, Args1]).map (List.map pack_element.index)
      = (List.range (Args0.length * Args1.length)).map
          (fun k => [k / Args1.length, k % Args1.length]) := by
  apply List.ext_getElem?
  intro k
  rw [List.getElem?_map, List.getElem?_map, packs_calls_two_getElem?]
  by_cases hk : k < Args0.length * Args1.length
  · have hpos : 0 < Args1.length := by
      rcases Nat.eq_zero_or_pos Args1.length with h0 | h
      · rw [h0] at hk; simp at hk
      · exact h
    have hrow : k / Args1.length < Args0.length :=
      Nat.div_lt_of_lt_mul (by rw [Nat.mul_comm]; exact hk)
    have hcol : k % Args1.length < Args1.length := Nat.mod_lt _ hpos
    rw [List.getElem?_range hk, List.getElem?_eq_getElem hrow, List.getElem?_eq_getElem hcol]
    rfl
  · have hle : Args0.length * Args1.length ≤ k := Nat.le_of_not_lt hk
    rw [List.getElem?_eq_none (l := List.range _) (by simpa using hle)]
    rcases Nat.eq_zero_or_pos Args1.length with h0 | hpos
    · have hnil : Args1 = [] := List.length_eq_zero.mp h0
      subst hnil
      cases Args0[k / ([] : List α).length]? <;> simp
    · have hrow : Args0.length ≤ k / Args1.length :=
        (Nat.le_div_iff_mul_le hpos).2 hle
      rw [List.getElem?_eq_none hrow]
      rfl

/-- C6: for every pack of `n` arguments, the one-sequence `for_each` calls the
visitor exactly `n` times; the `k`-th call receives the element pairing index
`k` with the `k`-th argument, so the indices seen are `0, 1, ..., n-1` in this
order and the types seen are the arguments in order; and the effect of the
traversal with any visitor on any state is the visitor applied to these calls
one after the other. -/
theorem pack_for_each_calls {α : Type} (Args : List α) :
    (pack Args).calls.length = Args.length
    ∧ (pack Args).size = Args.length
    ∧ (∀ k : Nat, (pack Args).calls[k]? = (Args[k]?).map (fun a => ⟨k, a⟩))
    ∧ (pack Args).calls.map pack_element.index = List.range Args.length
    ∧ (pack Args).calls.map pack_element.type = Args
    ∧ (∀ (σ : Type) (f : pack_element α → σ → σ) (s : σ),
        (pack Args).for_each f s = (pack Args).calls.foldl (fun s e => f e s) s) := by
  rw [pack_calls_eq_elements]
  exact ⟨pack_elements_length Args, rfl, pack_elements_getElem? Args,
    pack_elements_index Args, pack_elements_type Args,
    fun _ f s => pack_for_each_eq_foldl (pack Args) f s⟩

/-- C5: for every row pack of `M` arguments and column pack of `N` arguments,
the two-sequence `for_each` calls the visitor exactly `M * N` times, for each
row element in order with each column element in order; the `k`-th call
receives the row element of index `k / N` and the column element of index
`k % N`; the row index never decreases along the calls, and the `N` calls of
row `r` carry the column indices `0, 1, ..., N-1` in this order; the effect of
the traversal with any visitor on any state is the visitor applied to these
calls one after the other.  For sizes 3 and 4 there are 12 calls. -/
theorem packs_for_each_row_major {α : Type} (Args0 Args1 : List α) :
    packs.calls [Args0, Args1]
      = (pack Args0).elements.flatMap
          (fun row => (pack Args1).elements.map (fun column => [row, column]))
    ∧ (packs.calls [Args0, Args1]).length = Args0.length * Args1.length
    ∧ (∀ k : Nat, (packs.calls [Args0, Args1])[k]?
        = (Args0[k / Args1.length]?).bind (fun a =>
            (Args1[k % Args1.length]?).map (fun b =>
              [⟨k / Args1.length, a⟩, ⟨k % Args1.length, b⟩])))
    ∧ (packs.calls [Args0, Args1]).map (List.map pack_element.index)
        = (List.range (Args0.length * Args1.length)).map
            (fun k => [k / Args1.length, k % Args1.length])
    ∧ ((packs.calls [Args0, Args1]).map (fun xs => call_index xs 0)).Pairwise (· ≤ ·)
    ∧ (∀ r : Nat, r < Args0.length →
        (((packs.calls [Args0, Args1]).drop (r * Args1.length)).take Args1.length).map
            (List.map pack_element.index)
          = (List.range Args1.length).map (fun c => [r, c]))
    ∧ (∀ (σ : Type) (f : List (pack_element α) → σ → σ) (s : σ),
        packs.for_each [Args0, Args1] f [] s
          = (packs.calls [Args0, Args1]).foldl (fun s xs => f xs s) s)
    ∧ (Args0.length = 3 → Args1.length = 4 → (packs.calls [Args0, Args1]).length = 12) := by
  have hidx := packs_calls_two_index Args0 Args1
  refine ⟨packs_calls_two Args0 Args1, packs_calls_two_length Args0 Args1,
    packs_calls_two_getElem? Args0 Args1, hidx, ?_, ?_, ?_, ?_⟩
  · have hmap : (packs.calls [Args0, Args1]).map (fun xs => call_index xs 0)
        = ((packs.calls [Args0, Args1]).map (List.map pack_element.index)).map
            (fun is => (is[0]?).getD 0) := by
      rw [List.map_map]
      rfl
    rw [hmap, hidx, List.map_map, List.pairwise_map]
    refine (List.pairwise_le_range _).imp ?_
    intro a b hab
    simpa using Nat.div_le_div_right hab
  · intro r hr
    rw [List.map_take, List.map_drop, hidx]
    apply List.ext_getElem?
    intro j
    rw [List.getElem?_take, List.getElem?_map]
    by_cases hj : j < Args1.length
    · have hlt : r * Args1.length + j < Args0.length * Args1.length := by
        calc r * Args1.length + j < r * Args1.length + Args1.length := by omega
          _ = (r + 1) * Args1.length := by rw [Nat.succ_mul]
          _ ≤ Args0.length * Args1.length := Nat.mul_le_mul_right _ hr
      have hpos : 0 < Args1.length := by omega
      rw [if_pos hj, List.getElem?_drop, List.getElem?_map, List.getElem?_range hlt,
        List.getElem?_range hj]
      simp only [Option.map_some']
      rw [Nat.mul_comm r, Nat.mul_add_div hpos, Nat.mul_add_mod, Nat.div_eq_of_lt hj,
        Nat.mod_eq_of_lt hj, Nat.add_zero]
    · rw [if_neg hj, List.getElem?_eq_none (l := List.range _) (by simpa using hj)]
      rfl
  · intro σ f s
    rw [packs_calls_eq_tuples, packs_for_each_eq_foldl]
  · intro h0 h1
    rw [packs_calls_two_length, h0, h1]

/-- A witness of C5: a traversal of three rows by four columns makes twelve
calls, in row-major order. -/
theorem packs_for_each_row_major_witness :
    (packs.calls [[10, 20, 30], [1, 2, 3, 4]]).length = 12
    ∧ (packs.calls [[10, 20, 30], [1, 2, 3, 4]]).map (List.map pack_element.index)
        = [[0, 0], [0, 1], [0, 2], [0, 3], [1, 0], [1, 1], [1, 2], [1, 3],
           [2, 0], [2, 1], [2, 2], [2, 3]] :=
  ⟨(packs_for_each_row_major [10, 20, 30] [1, 2, 3, 4]).2.2.2.2.2.2.2 rfl rfl,
   (packs_for_each_row_major [10, 20, 30] [1, 2, 3, 4]).2.2.2.1.trans (by decide)⟩

/-! ### Tables -/

/-- Joining a list of strings, head first. -/
theorem join_cons (a : String) (l : List String) :
    String.join (a :: l) = a ++ String.join l := by
  apply String.ext
  simp [String.data_join]

/-- Joining two lists of strings. -/
theorem join_append (l1 l2 : List String) :
    String.join (l1 ++ l2) = String.join l1 ++ String.join l2 := by
  apply String.ext
  simp [String.data_join]

/-- Appending a piece per element along a left fold appends the joined pieces. -/
theorem foldl_append_join {α : Type} (g : α → String) (l : List α) (s : String) :
    l.foldl (fun tex e => tex ++ g e) s = s ++ String.join (l.map g) := by
  induction l generalizing s with
  | nil => simp [String.join]
  | cons a l ih => rw [List.foldl_cons, ih, List.map_cons, join_cons, String.append_assoc]

/-- One call of the visitor of the one-sequence table appends one data row. -/
theorem texify_one_visitor_eq {β : Type} (f : pack_element (QType β) → String)
    (colored : String) (e : pack_element (QType β)) (tex : String) :
    texify_one.visitor f colored [e] tex = tex ++ texify_one.data_row f colored e := by
  simp only [texify_one.visitor, texify_one.data_row, header_cell, stringify_default, row_end]
  split <;> simp [String.append_assoc]

/-- The tuples of a single sequence are its elements, one per tuple. -/
theorem packs_tuples_one {α : Type} (Args : List α) :
    packs.tuples [Args] [] = (pack Args).elements.map (fun e => [e]) := by
  simp only [packs.tuples, List.nil_append]
  exact flatMap_singleton_map _ _

/-- The document of the one-sequence table: opening text, table opening, header
row, one data row per element in order, table closing, closing text. -/
theorem texify_one_layout {β : Type} (Args : List (QType β)) (name : String)
    (f : pack_element (QType β) → String) (colored : String) :
    texify_one Args name f colored
      = texify_base.document_begin
        ++ texify_one.table_begin
        ++ texify_one.header_row name
        ++ String.join ((pack Args).elements.map (texify_one.data_row f colored))
        ++ table_end
        ++ texify_base.document_end := by
  simp only [texify_one, packs_for_each_eq_foldl, packs_tuples_one, List.foldl_map,
    texify_one_visitor_eq, foldl_append_join, texify_one.table_begin, texify_one.header_row,
    texify_one.header_first, table_end, texcell_literal, texcell_bool, if_true]
  simp [String.append_assoc]

/-- C8: for every pack of `n` arguments and every cell function `f`, the
one-sequence `texify` emits, between its header row and the end of the
tabular, exactly `n` data rows in the order of the pack, the `k`-th being the
`k`-th type rendered with west placement, full verbosity and the name `T` as a
colored code cell, then ` & `, then `f` of the element, then the row
terminator, once.  For a two-element pack and `f` returning the index as text
the body is two rows, with cells `0` then `1`. -/
theorem texify_one_data_rows {β : Type} (Args : List (QType β)) (name : String)
    (f : pack_element (QType β) → String) (colored : String) :
    texify_one Args name f colored
      = texify_base.document_begin
        ++ texify_one.table_begin
        ++ texify_one.header_row name
        ++ String.join ((pack Args).elements.map (texify_one.data_row f colored))
        ++ table_end
        ++ texify_base.document_end
    ∧ ((pack Args).elements.map (texify_one.data_row f colored)).length = Args.length
    ∧ (∀ k : Nat, ((pack Args).elements.map (texify_one.data_row f colored))[k]?
        = (Args[k]?).map (fun T =>
            texcell_colored (stringify T Length.full Direction.west "T")
                (if colored.isEmpty then texcolor T else colored)
              ++ " & " ++ f ⟨k, T⟩ ++ ("\\\\ \\hline" ++ "\n")))
    ∧ (∀ T0 T1 : QType β,
        String.join ((pack [T0, T1]).elements.map
            (texify_one.data_row (fun e => toString e.index) colored))
          = (header_cell colored ⟨0, T0⟩ ++ " & " ++ "0" ++ row_end)
            ++ (header_cell colored ⟨1, T1⟩ ++ " & " ++ "1" ++ row_end))
    ∧ String.join ((pack [QType.plain (), add_const_t (QType.plain ())]).elements.map
          (texify_one.data_row (fun e => toString e.index) ""))
        = "\\cellcolor\x7bblue!20\x7d\\lstinline!T! & 0\\\\ \\hline\n"
          ++ "\\cellcolor\x7bblue!40\x7d\\lstinline!const T! & 1\\\\ \\hline\n"
    ∧ count_in row_end
        (String.join ((pack [QType.plain (), add_const_t (QType.plain ())]).elements.map
          (texify_one.data_row (fun e => toString e.index) ""))) = 2 := by
  refine ⟨texify_one_layout Args name f colored, ?_, ?_, ?_, by decide, by decide⟩
  · rw [List.length_map, pack_elements_length]
  · intro k
    rw [List.getElem?_map, pack_elements_getElem?]
    cases Args[k]? <;> rfl
  · intro T0 T1
    simp only [pack, pack_base.elements, index_sequence_for, List.length_cons, List.length_nil,
      List.range, List.range.loop, expand, List.map_cons, List.map_nil, join_cons,
      texify_one.data_row]
    simp [String.join]
    rfl

/-- C9, the code evaluated: for every label, the header row of the
one-sequence table is two cells in this order.  The first is a centered
one-column `multicolumn` holding `\cellcolor` green and the inline code `true`:
the call `texcell("decltype(T)")` of line 525 reaches the overload for `bool`,
and the caption `decltype(T)`, which the overload for strings would render as
`\lstinline!decltype(T)!`, is not in the header row.  The second is the label
rendered as an inline-code cell.  For the label `name` and no element the
document is evaluated in full. -/
theorem texify_one_header_row {β : Type} (Args : List (QType β)) (name : String)
    (f : pack_element (QType β) → String) (colored : String) :
    texify_one Args name f colored
      = texify_base.document_begin
        ++ texify_one.table_begin
        ++ (("\\multicolumn\x7b1\x7d\x7b|c||\x7d\x7b"
              ++ "\\cellcolor\x7bgreen\x7d\\lstinline!true!" ++ "\x7d")
            ++ " & " ++ texcell name ++ "\\\\ \\hline \\hline")
        ++ String.join ((pack Args).elements.map (texify_one.data_row f colored))
        ++ table_end
        ++ texify_base.document_end
    ∧ texcell_literal "decltype(T)" = "\\cellcolor\x7bgreen\x7d\\lstinline!true!"
    ∧ texcell "decltype(T)" = "\\lstinline!decltype(T)!"
    ∧ texify_one ([] : List (QType Unit)) "name" (fun _ => "") ""
      = texify_base.document_begin
        ++ texify_one.table_begin
        ++ "\\multicolumn\x7b1\x7d\x7b|c||\x7d\x7b\\cellcolor\x7bgreen\x7d\\lstinline!true!\x7d & \\lstinline!name!\\\\ \\hline \\hline"
        ++ table_end
        ++ texify_base.document_end
    ∧ cells_of "\\multicolumn\x7b1\x7d\x7b|c||\x7d\x7b\\cellcolor\x7bgreen\x7d\\lstinline!true!\x7d & \\lstinline!name!\\\\ \\hline \\hline"
        = ["\\multicolumn\x7b1\x7d\x7b|c||\x7d\x7b\\cellcolor\x7bgreen\x7d\\lstinline!true!\x7d",
           "\\lstinline!name!\\\\ \\hline \\hline"]
    ∧ ¬ ("decltype(T)".data <:+: (texify_one.header_row "name").data)
    ∧ ¬ ("name".data <:+: texify_one.header_first.data) := by
  have hrow : texify_one.header_row "name"
      = "\\multicolumn\x7b1\x7d\x7b|c||\x7d\x7b\\cellcolor\x7bgreen\x7d\\lstinline!true!\x7d & \\lstinline!name!\\\\ \\hline \\hline" := by
    decide
  have hbody : String.join ((pack ([] : List (QType Unit))).elements.map
      (texify_one.data_row (fun _ => "") "")) = "" := rfl
  refine ⟨texify_one_layout Args name f colored, by decide, by decide, ?_, by decide,
    ?_, by decide⟩
  · rw [texify_one_layout, hrow, hbody, String.append_empty]
  · intro h
    have hy : 'y' ∈ (texify_one.header_row "name").data :=
      h.subset (by decide : 'y' ∈ "decltype(T)".data)
    rw [hrow] at hy
    exact absurd hy (by decide)

/-- Appending a piece per element of flattened blocks appends, block after
block, the joined pieces of the block. -/
theorem foldl_flatMap_append_join {α γ : Type} (l : List α) (g : α → List γ)
    (h : γ → String) (s : String) :
    (l.flatMap g).foldl (fun tex x => tex ++ h x) s
      = s ++ String.join (l.map (fun a => String.join ((g a).map h))) := by
  rw [foldl_append_join]
  congr 1
  induction l with
  | nil => rfl
  | cons a l ih => rw [List.flatMap_cons, List.map_append, join_append, ih, List.map_cons, join_cons]

/-- One call of the third visitor of the two-sequence table appends one piece. -/
theorem texify_two_visitor_cells_eq {β : Type} (n1 : Nat)
    (f : pack_element (QType β) → pack_element (QType β) → String)
    (colored : String) (row column : pack_element (QType β)) (tex : String) :
    texify_two.visitor_cells n1 f colored [row, column] tex
      = tex ++ texify_two.piece n1 f colored row column := by
  simp only [texify_two.visitor_cells, texify_two.piece, header_cell, stringify_default, row_end]
  split_ifs <;> simp [String.append_assoc]

/-- The pieces of one row, over the column elements from index `k` on: the
header cell comes with index 0, the row terminator with the last index. -/
theorem row_pieces_from {β : Type} (N : Nat)
    (f : pack_element (QType β) → pack_element (QType β) → String)
    (colored : String) (row : pack_element (QType β)) (as : List (QType β)) (k : Nat)
    (hk : k + as.length = N) :
    String.join ((expand (List.range' k as.length) as).map (texify_two.piece N f colored row))
      = (if k = 0 ∧ 0 < as.length then header_cell colored row else "")
        ++ String.join ((expand (List.range' k as.length) as).map
            (fun column => " & " ++ f row column))
        ++ (if 0 < as.length then row_end else "") := by
  induction as generalizing k with
  | nil => simp [expand, String.join]
  | cons a as ih =>
    have hk1 : k + 1 + as.length = N := by simp only [List.length_cons] at hk; omega
    simp only [List.length_cons, List.range'_succ, expand, List.map_cons, join_cons, ih (k + 1) hk1]
    cases as with
    | nil =>
      have hlast : k + 1 = N := by simpa using hk1
      subst hlast
      rcases Nat.eq_zero_or_pos k with h0 | h0
      · subst h0
        simp [texify_two.piece, expand, String.join, String.append_assoc]
      · have hne : k ≠ 0 := by omega
        simp [texify_two.piece, expand, String.join, hne, String.append_assoc]
    | cons b bs =>
      have hnot : ¬ (k + 1 = N) := by simp only [List.length_cons] at hk1; omega
      rcases Nat.eq_zero_or_pos k with h0 | h0
      · subst h0
        simp [texify_two.piece, hnot, String.append_assoc]
      · have hne : k ≠ 0 := by omega
        simp [texify_two.piece, hnot, hne, String.append_assoc]

/-- For a column pack that is not empty, the pieces of one row are the row of
the specification. -/
theorem row_pieces_eq_data_row {β : Type} (Args1 : List (QType β))
    (f : pack_element (QType β) → pack_element (QType β) → String)
    (colored : String) (row : pack_element (QType β)) (hN : 1 ≤ Args1.length) :
    String.join ((pack Args1).elements.map (texify_two.piece Args1.length f colored row))
      = texify_two.data_row Args1 f colored row := by
  have h := row_pieces_from Args1.length f colored row Args1 0 (Nat.zero_add _)
  have hpos : 0 < Args1.length := hN
  simp only [hpos, and_self, if_true, ← List.range_eq_range'] at h
  simpa [texify_two.data_row, pack, pack_base.elements, index_sequence_for] using h

/-- The tuples of two sequences: for each row element, each column element. -/
theorem packs_tuples_two {α : Type} (Args0 Args1 : List α) :
    packs.tuples [Args0, Args1] []
      = (pack Args0).elements.flatMap
          (fun row => (pack Args1).elements.map (fun column => [row, column])) := by
  rw [← packs_calls_eq_tuples, packs_calls_two]

/-- The document of the two-sequence table: opening text, table head, then
for each row element in order the pieces of its calls, table closing, closing
text. -/
theorem texify_two_layout {β : Type} (Args0 Args1 : List (QType β)) (name : String)
    (f : pack_element (QType β) → pack_element (QType β) → String) (colored : String) :
    texify_two Args0 Args1 name f colored
      = texify_base.document_begin
        ++ texify_two.table_head Args1 name colored
        ++ String.join ((pack Args0).elements.map (fun row =>
            String.join ((pack Args1).elements.map
              (texify_two.piece Args1.length f colored row))))
        ++ table_end
        ++ texify_base.document_end := by
  have hspec : ∀ (e : pack_element (QType β)) (tex : String),
      texify_two.visitor_spec [e] tex = tex ++ (fun _ => "c|") e := fun _ _ => rfl
  have hcol : ∀ (e : pack_element (QType β)) (tex : String),
      texify_two.visitor_columns colored [e] tex
        = tex ++ (fun c : pack_element (QType β) =>
            " & " ++ texcell_rotated_colored 90
              (stringify c.type Length.full Direction.west "T")
              (if colored.isEmpty then texcolor c.type else colored)) e := by
    intro e tex
    simp only [texify_two.visitor_columns, stringify_default]
    split <;> rfl
  have hpairs : ((pack Args0).elements.flatMap
        (fun row => (pack Args1).elements.map (fun column => [row, column])))
      = ((pack Args0).elements.flatMap
          (fun row => (pack Args1).elements.map (fun column => (row, column)))).map
          (fun p => [p.1, p.2]) := by
    rw [List.map_flatMap]
    simp only [List.map_map]
    rfl
  simp only [texify_two, packs_for_each_eq_foldl, packs_tuples_one, packs_tuples_two,
    List.foldl_map, hspec, hcol, foldl_append_join, texify_two.table_head, table_end]
  rw [hpairs, List.foldl_map]
  simp only [texify_two_visitor_cells_eq]
  rw [foldl_flatMap_append_join _ _
    (fun p : pack_element (QType β) × pack_element (QType β) =>
      texify_two.piece Args1.length f colored p.1 p.2)]
  simp only [List.map_map]
  simp only [String.append_assoc, String.empty_append]
  rfl

/-! ### Counting occurrences -/

/-- Unfolding the count at a first character. -/
theorem occurrences_cons (P : List Char) (c : Char) (s : List Char) :
    occurrences P (c :: s) = (if P <+: c :: s then 1 else 0) + occurrences P s := rfl

/-- Appending one character adds one occurrence exactly when the pattern is a
suffix of the result. -/
theorem occurrences_append_singleton (P : List Char) (Y : List Char) (d : Char) :
    occurrences P (Y ++ [d]) = occurrences P Y + (if P <:+ Y ++ [d] then 1 else 0) := by
  induction Y with
  | nil =>
    have hiff : P <+: [d] ↔ P <:+ [d] := by
      constructor
      · intro h
        rcases List.prefix_cons_iff.1 h with h | ⟨t, rfl, ht⟩
        · subst h; exact List.nil_suffix
        · have : t = [] := List.prefix_nil.1 ht
          subst this; exact List.suffix_refl _
      · intro h
        rcases List.suffix_cons_iff.1 h with h | h
        · subst h; exact List.prefix_refl _
        · have : P = [] := List.suffix_nil.1 h
          subst this; exact List.nil_prefix
    rw [List.nil_append, occurrences_cons]
    by_cases h : P <+: [d]
    · rw [if_pos h, if_pos (hiff.1 h)]; rfl
    · rw [if_neg h, if_neg (fun h' => h (hiff.2 h'))]; rfl
  | cons a Y ih =>
    have hpre : P <+: a :: (Y ++ [d]) ↔ P = a :: (Y ++ [d]) ∨ P <+: a :: Y := by
      rw [← List.cons_append, List.prefix_concat_iff]
    have hsuf : P <:+ a :: (Y ++ [d]) ↔ P = a :: (Y ++ [d]) ∨ P <:+ Y ++ [d] :=
      List.suffix_cons_iff
    rw [List.cons_append, occurrences_cons, occurrences_cons, ih]
    by_cases hE : P = a :: (Y ++ [d])
    · have h1 : ¬ P <+: a :: Y := by
        intro h
        have := h.length_le
        rw [hE] at this
        simp at this
      have h2 : ¬ P <:+ Y ++ [d] := by
        intro h
        have := h.length_le
        rw [hE] at this
        simp at this
      rw [if_pos (hpre.2 (Or.inl hE)), if_pos (hsuf.2 (Or.inl hE)), if_neg h1, if_neg h2]
      omega
    · have h3 : P <+: a :: (Y ++ [d]) ↔ P <+: a :: Y := by
        rw [hpre]; simp [hE]
      have h4 : P <:+ a :: (Y ++ [d]) ↔ P <:+ Y ++ [d] := by
        rw [hsuf]; simp [hE]
      by_cases h5 : P <+: a :: Y
      · rw [if_pos (h3.2 h5), if_pos h5]
        by_cases h6 : P <:+ Y ++ [d]
        · rw [if_pos (h4.2 h6), if_pos h6]; omega
        · rw [if_neg (fun h => h6 (h4.1 h)), if_neg h6]; omega
      · rw [if_neg (fun h => h5 (h3.1 h)), if_neg h5]
        by_cases h6 : P <:+ Y ++ [d]
        · rw [if_pos (h4.2 h6), if_pos h6]; omega
        · rw [if_neg (fun h => h6 (h4.1 h)), if_neg h6]; omega

/-- Appending characters other than the last of the pattern adds no occurrence. -/
theorem occurrences_append_of_ne_last (p : List Char) (c : Char) (Y q : List Char)
    (hq : ∀ d ∈ q, d ≠ c) :
    occurrences (p ++ [c]) (Y ++ q) = occurrences (p ++ [c]) Y := by
  induction q generalizing Y with
  | nil => simp
  | cons d q ih =>
    have hd : d ≠ c := hq d (List.mem_cons_self _ _)
    have hstep : occurrences (p ++ [c]) (Y ++ [d]) = occurrences (p ++ [c]) Y := by
      rw [occurrences_append_singleton, if_neg, Nat.add_zero]
      intro h
      obtain ⟨t, ht⟩ := h
      have := congrArg List.getLast? ht
      simp at this
      exact hd this.symm
    have := ih (Y ++ [d]) (fun x hx => hq x (List.mem_cons_of_mem _ hx))
    rw [List.append_assoc, List.singleton_append] at this
    rw [this, hstep]

/-- A text ending with the pattern has one occurrence more than what precedes the
pattern, when the last character of the pattern occurs nowhere else in it. -/
theorem occurrences_append_pattern (p : List Char) (c : Char) (Y : List Char)
    (hc : c ∉ p) :
    occurrences (p ++ [c]) (Y ++ (p ++ [c])) = occurrences (p ++ [c]) Y + 1 := by
  rw [← List.append_assoc, occurrences_append_singleton,
    occurrences_append_of_ne_last p c Y p (fun d hd hdc => hc (hdc ▸ hd)),
    if_pos]
  rw [List.append_assoc]
  exact List.suffix_append _ _

/-- A character that is not in the pattern separates the occurrences. -/
theorem occurrences_barrier (P : List Char) (hP : P ≠ []) (b : Char) (hb : b ∉ P)
    (A B : List Char) :
    occurrences P (A ++ b :: B) = occurrences P A + occurrences P B := by
  have key : ∀ X : List Char, P <+: X ++ b :: B ↔ P <+: X := by
    intro X
    constructor
    · intro h
      have h2 : X ++ [b] <+: X ++ b :: B := by
        rw [List.prefix_append_right_inj]
        exact List.cons_prefix_cons.2 ⟨rfl, List.nil_prefix⟩
      rcases List.prefix_or_prefix_of_prefix h h2 with h3 | h3
      · rcases List.prefix_concat_iff.1 h3 with h4 | h4
        · exact absurd (h4 ▸ (List.mem_append_right X (List.mem_singleton_self b))) hb
        · exact h4
      · exact absurd (h3.subset (List.mem_append_right X (List.mem_singleton_self b))) hb
    · intro h
      exact h.trans (List.prefix_append _ _)
  induction A with
  | nil =>
    rw [List.nil_append, occurrences_cons, if_neg]
    · simp [occurrences]
    · intro h
      exact hP (List.prefix_nil.1 ((key []).1 h))
  | cons a A ih =>
    rw [List.cons_append, occurrences_cons, occurrences_cons, ih]
    have := key (a :: A)
    rw [List.cons_append] at this
    by_cases h : P <+: a :: A
    · rw [if_pos h, if_pos (this.2 h)]; omega
    · rw [if_neg h, if_neg (fun h' => h (this.1 h'))]; omega

/-- The last character of the pattern, occurring only there in the pattern,
closes the occurrences before it. -/
theorem occurrences_split_last (p : List Char) (c : Char) (hc : c ∉ p) (A B : List Char) :
    occurrences (p ++ [c]) (A ++ c :: B)
      = occurrences (p ++ [c]) (A ++ [c]) + occurrences (p ++ [c]) B := by
  have key : ∀ X : List Char, p ++ [c] <+: X ++ c :: B ↔ p ++ [c] <+: X ++ [c] := by
    intro X
    have h2 : X ++ [c] <+: X ++ c :: B := by
      rw [List.prefix_append_right_inj]
      exact List.cons_prefix_cons.2 ⟨rfl, List.nil_prefix⟩
    constructor
    · intro h
      rcases List.prefix_or_prefix_of_prefix h h2 with h3 | h3
      · exact h3
      · rcases List.prefix_concat_iff.1 h3 with h4 | h4
        · rw [h4]
        · exact absurd (h4.subset (List.mem_append_right X (List.mem_singleton_self c))) hc
    · intro h
      exact h.trans h2
  induction A with
  | nil =>
    have := key []
    simp only [List.nil_append] at this ⊢
    rw [occurrences_cons, occurrences_cons]
    by_cases h : p ++ [c] <+: [c]
    · rw [if_pos h, if_pos (this.2 h)]; simp [occurrences]
    · rw [if_neg h, if_neg (fun h' => h (this.1 h'))]; simp [occurrences]
  | cons a A ih =>
    have := key (a :: A)
    simp only [List.cons_append] at this ⊢
    rw [occurrences_cons, occurrences_cons, ih]
    by_cases h : p ++ [c] <+: a :: (A ++ [c])
    · rw [if_pos h, if_pos (this.2 h)]; omega
    · rw [if_neg h, if_neg (fun h' => h (this.1 h'))]; omega

/-- A first character other than the first of the pattern starts no occurrence. -/
theorem occurrences_cons_of_ne_head (x : Char) (P' : List Char) (c : Char) (hx : x ≠ c)
    (s : List Char) : occurrences (x :: P') (c :: s) = occurrences (x :: P') s := by
  rw [occurrences_cons, if_neg, Nat.zero_add]
  intro h
  exact hx (List.cons_prefix_cons.1 h).1

/-- The cells of a row, as characters: a separator before each output. -/
theorem occurrences_cells (p : List Char) (c x : Char) (P' : List Char)
    (hP : p ++ [c] = x :: P') (hc : c ≠ ' ') (hx : x ≠ ' ') (hamp : '&' ∉ p ++ [c])
    (l : List (List Char)) (f : List Char)
    (hf : occurrences (p ++ [c]) f = 0) (hl : ∀ g ∈ l, occurrences (p ++ [c]) g = 0) :
    occurrences (p ++ [c]) (f ++ (l.map (fun g => ' ' :: '&' :: ' ' :: g)).flatten) = 0 := by
  induction l generalizing f with
  | nil => simpa using hf
  | cons g l ih =>
    have hg := ih g (hl g (List.mem_cons_self _ _)) (fun g' hg' => hl g' (List.mem_cons_of_mem _ hg'))
    have hsplit : f ++ ((g :: l).map (fun g => ' ' :: '&' :: ' ' :: g)).flatten
        = (f ++ [' ']) ++ '&' :: (' ' :: (g ++ (l.map (fun g => ' ' :: '&' :: ' ' :: g)).flatten)) := by
      simp
    rw [hsplit, occurrences_barrier _ (by simp) '&' hamp,
      occurrences_append_of_ne_last p c f [' '] (by simpa using fun h => hc h.symm), hf,
      Nat.zero_add, hP, occurrences_cons_of_ne_head x P' ' ' hx, ← hP]
    exact hg

/-- The characters of a header cell: the opening of a colored cell, the color,
a closing brace, and the rendered type as inline code. -/
theorem header_cell_data {β : Type} (colored : String) (e : pack_element (QType β)) :
    (header_cell colored e).data
      = "\\cellcolor".data ++ '\x7b' ::
          ((if colored.isEmpty then texcolor e.type else colored).data ++ '\x7d' ::
            ("\\lstinline".data ++ '!' ::
              ((stringify e.type Length.full Direction.west "T").data ++ ['!']))) := by
  have hstr : (stringify e.type Length.full Direction.west "T").isEmpty = false := by
    obtain ⟨i, ⟨b, cv, ref⟩⟩ := e
    cases cv <;> cases ref <;> rfl
  simp [header_cell, texcell_colored, texcellcolor, texcell, hstr]

/-- The characters of the cells of a row. -/
theorem cells_data {α : Type} (l : List α) (g : α → String) :
    (String.join (l.map (fun column => " & " ++ g column))).data
      = ((l.map (fun column => (g column).data)).map
          (fun g => ' ' :: '&' :: ' ' :: g)).flatten := by
  induction l with
  | nil => rfl
  | cons a l ih =>
    rw [List.map_cons, join_cons, String.data_append, String.data_append, ih]
    rfl

/-- The characters of a row of the two-sequence table, followed by `R`. -/
theorem data_row_data {β : Type} (Args1 : List (QType β))
    (f : pack_element (QType β) → pack_element (QType β) → String)
    (colored : String) (row : pack_element (QType β)) (R : List Char) :
    (texify_two.data_row Args1 f colored row).data ++ R
      = "\\cellcolor".data ++ '\x7b' ::
          ((if colored.isEmpty then texcolor row.type else colored).data ++ '\x7d' ::
            ("\\lstinline".data ++ '!' ::
              ((stringify row.type Length.full Direction.west "T").data ++ '!' ::
                ((((pack Args1).elements.map (fun column => (f row column).data)).map
                    (fun g => ' ' :: '&' :: ' ' :: g)).flatten
                  ++ ("\\\\ \\hline".data ++ '\n' :: R))))) := by
  simp only [texify_two.data_row, String.data_append, header_cell_data, cells_data]
  have hend : row_end.data = "\\\\ \\hline".data ++ ['\n'] := rfl
  rw [hend]
  simp only [List.append_assoc, List.cons_append, List.nil_append]

/-- Neither the row terminator nor the header mark occurs in a rendered type. -/
theorem stringify_free {β : Type} (T : QType β) :
    occurrences row_end.data (stringify T Length.full Direction.west "T").data = 0
    ∧ occurrences header_mark.data (stringify T Length.full Direction.west "T").data = 0 := by
  obtain ⟨b, cv, ref⟩ := T
  cases cv <;> cases ref <;> exact ⟨rfl, rfl⟩

/-- Neither the row terminator nor the header mark occurs in a color of the
color table. -/
theorem texcolor_free {β : Type} (T : QType β) :
    occurrences row_end.data (texcolor T).data = 0
    ∧ occurrences header_mark.data (texcolor T).data = 0 := by
  obtain ⟨b, cv, ref⟩ := T
  cases cv <;> cases ref <;> exact ⟨rfl, rfl⟩

/-- After the opening of a header cell, up to the end of the cell, no
occurrence of a pattern that has no closing brace and no exclamation mark and
occurs neither in the color nor in the rendered type. -/
theorem occurrences_header_rest (P : List Char) (hP : P ≠ []) (h2 : '\x7d' ∉ P)
    (h3 : '!' ∉ P) (color A2 str Rest : List Char)
    (hcolor : occurrences P color = 0) (hA2 : occurrences P A2 = 0)
    (hstr : occurrences P str = 0) :
    occurrences P (color ++ '\x7d' :: (A2 ++ '!' :: (str ++ '!' :: Rest)))
      = occurrences P Rest := by
  rw [occurrences_barrier P hP '\x7d' h2, occurrences_barrier P hP '!' h3,
    occurrences_barrier P hP '!' h3, hcolor, hA2, hstr]
  simp

/-- The row terminator occurs once in a row of the two-sequence table, at its
end, when it occurs neither in the outputs of the cell function nor in the
color override. -/
theorem data_row_count_row_end {β : Type} (Args1 : List (QType β))
    (f : pack_element (QType β) → pack_element (QType β) → String)
    (colored : String) (row : pack_element (QType β))
    (hf : ∀ column, count_in row_end (f row column) = 0)
    (hcol : count_in row_end colored = 0) (R : List Char) :
    occurrences row_end.data ((texify_two.data_row Args1 f colored row).data ++ R)
      = 1 + occurrences row_end.data R := by
  have hpat : row_end.data = "\\\\ \\hline".data ++ ['\n'] := rfl
  have hcolor : occurrences row_end.data
      (if colored.isEmpty then texcolor row.type else colored).data = 0 := by
    split
    · exact (texcolor_free row.type).1
    · exact hcol
  have hcells := occurrences_cells "\\\\ \\hline".data '\n' '\\' "\\ \\hline\n".data rfl
    (by decide) (by decide) (by decide)
    (((pack Args1).elements.map (fun column => (f row column).data))) [] rfl
    (by
      intro g hg
      obtain ⟨column, -, rfl⟩ := List.mem_map.1 hg
      exact hf column)
  rw [List.nil_append] at hcells
  have hstr := (stringify_free row.type).1
  rw [data_row_data, hpat] at *
  rw [occurrences_barrier _ (by simp) '\x7b' (by decide),
    occurrences_header_rest _ (by simp) (by decide) (by decide) _ _ _ _ hcolor (by decide) hstr,
    show occurrences ("\\\\ \\hline".data ++ ['\n']) "\\cellcolor".data = 0 from by decide,
    Nat.zero_add, ← List.append_assoc,
    occurrences_split_last "\\\\ \\hline".data '\n' (by decide),
    List.append_assoc, occurrences_append_pattern "\\\\ \\hline".data '\n' _ (by decide), hcells]

/-- The header mark occurs once in a row of the two-sequence table, at its
start, when it occurs neither in the outputs of the cell function nor in the
color override. -/
theorem data_row_count_header_mark {β : Type} (Args1 : List (QType β))
    (f : pack_element (QType β) → pack_element (QType β) → String)
    (colored : String) (row : pack_element (QType β))
    (hf : ∀ column, count_in header_mark (f row column) = 0)
    (hcol : count_in header_mark colored = 0) (R : List Char) :
    occurrences header_mark.data ((texify_two.data_row Args1 f colored row).data ++ R)
      = 1 + occurrences header_mark.data R := by
  have hpat : header_mark.data = "\\cellcolor".data ++ ['\x7b'] := rfl
  have hcolor : occurrences header_mark.data
      (if colored.isEmpty then texcolor row.type else colored).data = 0 := by
    split
    · exact (texcolor_free row.type).2
    · exact hcol
  have hcells := occurrences_cells "\\cellcolor".data '\x7b' '\\' "cellcolor\x7b".data rfl
    (by decide) (by decide) (by decide)
    (((pack Args1).elements.map (fun column => (f row column).data))) [] rfl
    (by
      intro g hg
      obtain ⟨column, -, rfl⟩ := List.mem_map.1 hg
      exact hf column)
  rw [List.nil_append] at hcells
  have hstr := (stringify_free row.type).2
  rw [data_row_data, hpat] at *
  rw [occurrences_split_last "\\cellcolor".data '\x7b' (by decide),
    occurrences_header_rest _ (by simp) (by decide) (by decide) _ _ _ _ hcolor (by decide) hstr,
    show occurrences ("\\cellcolor".data ++ ['\x7b']) ("\\cellcolor".data ++ ['\x7b']) = 1
      from by decide,
    ← List.append_assoc, occurrences_barrier _ (by simp) '\n' (by decide),
    occurrences_append_of_ne_last "\\cellcolor".data '\x7b' _ "\\\\ \\hline".data (by decide),
    hcells, Nat.zero_add]

/-- A pattern that occurs once in every row, whatever follows the row, occurs
in the joined rows once per row. -/
theorem occurrences_join_rows (P : List Char) (rows : List String)
    (h : ∀ r ∈ rows, ∀ R : List Char, occurrences P (r.data ++ R) = 1 + occurrences P R) :
    occurrences P (String.join rows).data = rows.length := by
  induction rows with
  | nil => rfl
  | cons r rows ih =>
    rw [join_cons, String.data_append, h r (List.mem_cons_self _ _),
      ih (fun r' hr' => h r' (List.mem_cons_of_mem _ hr')), List.length_cons, Nat.add_comm]

/-- C7, amended: for every row pack of `M` arguments, column pack of `N >= 1`
arguments and cell function `f`, the body the two-sequence `texify` emits after its head
is the concatenation, over the row elements in order, of: the header cell of
the row (its type rendered and colored), once, before the first cell; then for
each column element in order the separator ` & ` followed by `f row column`;
then the row terminator, once, after the last cell.  There are `M` such rows;
and when the outputs of `f` contain neither a row terminator nor a header mark
(and there is no color override, or the override contains none either), the
body holds exactly `M` row terminators and `M` header marks. -/
theorem texify_two_body {β : Type} (Args0 Args1 : List (QType β)) (name : String)
    (f : pack_element (QType β) → pack_element (QType β) → String) (colored : String)
    (hN : 1 ≤ Args1.length) :
    texify_two Args0 Args1 name f colored
      = texify_base.document_begin
        ++ texify_two.table_head Args1 name colored
        ++ String.join ((pack Args0).elements.map (texify_two.data_row Args1 f colored))
        ++ table_end
        ++ texify_base.document_end
    ∧ ((pack Args0).elements.map (texify_two.data_row Args1 f colored)).length = Args0.length
    ∧ (∀ k : Nat, ((pack Args0).elements.map (texify_two.data_row Args1 f colored))[k]?
        = (Args0[k]?).map (fun T =>
            texcell_colored (stringify T Length.full Direction.west "T")
                (if colored.isEmpty then texcolor T else colored)
              ++ String.join ((pack Args1).elements.map
                  (fun column => " & " ++ f ⟨k, T⟩ column))
              ++ ("\\\\ \\hline" ++ "\n")))
    ∧ ((∀ row column, count_in row_end (f row column) = 0
            ∧ count_in header_mark (f row column) = 0) →
        (colored = "" ∨
          (count_in row_end colored = 0 ∧ count_in header_mark colored = 0)) →
        count_in row_end
            (String.join ((pack Args0).elements.map (texify_two.data_row Args1 f colored)))
          = Args0.length
        ∧ count_in header_mark
            (String.join ((pack Args0).elements.map (texify_two.data_row Args1 f colored)))
          = Args0.length) := by
  refine ⟨?_, ?_, ?_, ?_⟩
  · rw [texify_two_layout]
    congr 4
    apply List.map_congr_left
    intro row _
    exact row_pieces_eq_data_row Args1 f colored row hN
  · rw [List.length_map, pack_elements_length]
  · intro k
    rw [List.getElem?_map, pack_elements_getElem?]
    cases Args0[k]? <;> rfl
  · intro hf hc
    have hc1 : count_in row_end colored = 0 := by
      rcases hc with h | h
      · subst h; decide
      · exact h.1
    have hc2 : count_in header_mark colored = 0 := by
      rcases hc with h | h
      · subst h; decide
      · exact h.2
    constructor
    · rw [count_in, occurrences_join_rows, List.length_map, pack_elements_length]
      intro r hr R
      obtain ⟨row, -, rfl⟩ := List.mem_map.1 hr
      exact data_row_count_row_end Args1 f colored row (fun column => (hf row column).1) hc1 R
    · rw [count_in, occurrences_join_rows, List.length_map, pack_elements_length]
      intro r hr R
      obtain ⟨row, -, rfl⟩ := List.mem_map.1 hr
      exact data_row_count_header_mark Args1 f colored row (fun column => (hf row column).2) hc2 R

/-- C7 as stated fails in its count: with one row, one column, the cell
function giving `x` (which holds no row terminator and no header mark) and the
row terminator as color override, the body holds two row terminators, one of
them inside the color of the header cell, for `M = 1`. -/
theorem texify_two_body_counterexample :
    1 ≤ [QType.plain ()].length
    ∧ count_in row_end "x" = 0
    ∧ count_in header_mark "x" = 0
    ∧ texify_two [QType.plain ()] [QType.plain ()] "name" (fun _ _ => "x") row_end
      = texify_base.document_begin
        ++ texify_two.table_head [QType.plain ()] "name" row_end
        ++ "\\cellcolor\x7b\\\\ \\hline\n\x7d\\lstinline!T! & x\\\\ \\hline\n"
        ++ table_end
        ++ texify_base.document_end
    ∧ String.join ((pack [QType.plain ()]).elements.map
          (texify_two.data_row [QType.plain ()] (fun _ _ => "x") row_end))
        = "\\cellcolor\x7b\\\\ \\hline\n\x7d\\lstinline!T! & x\\\\ \\hline\n"
    ∧ count_in row_end "\\cellcolor\x7b\\\\ \\hline\n\x7d\\lstinline!T! & x\\\\ \\hline\n" = 2
    ∧ [QType.plain ()].length = 1
    ∧ count_in row_end "\\cellcolor\x7b\\\\ \\hline\n\x7d\\lstinline!T! & x\\\\ \\hline\n"
        ≠ [QType.plain ()].length := by
  have hbody : String.join ((pack [QType.plain ()]).elements.map (fun row =>
      String.join ((pack [QType.plain ()]).elements.map
        (texify_two.piece [QType.plain ()].length (fun _ _ => "x") row_end row))))
      = "\\cellcolor\x7b\\\\ \\hline\n\x7d\\lstinline!T! & x\\\\ \\hline\n" := by
    decide
  refine ⟨by decide, by decide, by decide, ?_, by decide, by decide, rfl, by decide⟩
  rw [texify_two_layout, hbody]

/-- A witness of C7: two rows by two columns, the cell function giving the two
indices. -/
theorem texify_two_body_witness :
    1 ≤ [QType.plain (), add_const_t (QType.plain ())].length
    ∧ texify_two [QType.plain (), add_lvalue_reference_t (QType.plain ())]
          [QType.plain (), add_const_t (QType.plain ())] "name"
          (fun row column => toString row.index ++ toString column.index) ""
        = texify_base.document_begin
          ++ texify_two.table_head [QType.plain (), add_const_t (QType.plain ())] "name" ""
          ++ String.join ((pack [QType.plain (), add_lvalue_reference_t (QType.plain ())]).elements.map
              (texify_two.data_row [QType.plain (), add_const_t (QType.plain ())]
                (fun row column => toString row.index ++ toString column.index) ""))
          ++ table_end
          ++ texify_base.document_end
    ∧ String.join ((pack [QType.plain (), add_lvalue_reference_t (QType.plain ())]).elements.map
          (texify_two.data_row [QType.plain (), add_const_t (QType.plain ())]
            (fun row column => toString row.index ++ toString column.index) ""))
        = "\\cellcolor\x7bblue!20\x7d\\lstinline!T! & 00 & 01\\\\ \\hline\n"
          ++ "\\cellcolor\x7bgreen!20\x7d\\lstinline!T&! & 10 & 11\\\\ \\hline\n" :=
  ⟨by decide,
   (texify_two_body [QType.plain (), add_lvalue_reference_t (QType.plain ())]
      [QType.plain (), add_const_t (QType.plain ())] "name"
      (fun row column => toString row.index ++ toString column.index) "" (by decide)).1,
   by decide⟩

/-! ### Qualifier words and reference markers -/

/-- C11: for every cv-qualified type that is not a reference, `stringify` in
full with east placement and the name `T` is `T`, one space and the full
qualifier word, nothing after it: `T const`, `T volatile`, `T const volatile`. -/
theorem stringify_east_cv_only {β : Type} (T : QType β)
    (hcv : T.cv ≠ CV.none) (href : T.ref = Ref.none) :
    stringify T Length.full Direction.east "T"
      = "T " ++ (cv_string T Length.full).value
    ∧ (T.cv = CV.const → stringify T Length.full Direction.east "T" = "T const")
    ∧ (T.cv = CV.volatile → stringify T Length.full Direction.east "T" = "T volatile")
    ∧ (T.cv = CV.const_volatile →
        stringify T Length.full Direction.east "T" = "T const volatile") := by
  obtain ⟨b, cv, ref⟩ := T
  simp only at hcv href
  subst href
  cases cv
  · exact absurd rfl hcv
  · exact ⟨rfl, fun _ => rfl, fun h => CV.noConfusion h, fun h => CV.noConfusion h⟩
  · exact ⟨rfl, fun h => CV.noConfusion h, fun _ => rfl, fun h => CV.noConfusion h⟩
  · exact ⟨rfl, fun h => CV.noConfusion h, fun h => CV.noConfusion h, fun _ => rfl⟩

/-- A witness of C11: the const-volatile type that is not a reference. -/
theorem stringify_east_cv_only_witness :
    (⟨(), CV.const_volatile, Ref.none⟩ : QType Unit).cv ≠ CV.none
    ∧ (⟨(), CV.const_volatile, Ref.none⟩ : QType Unit).ref = Ref.none
    ∧ stringify (⟨(), CV.const_volatile, Ref.none⟩ : QType Unit) Length.full Direction.east "T"
        = "T const volatile" :=
  ⟨by decide, rfl,
   (stringify_east_cv_only (⟨(), CV.const_volatile, Ref.none⟩ : QType Unit) (by decide)
      rfl).2.2.2 rfl⟩

/-- C12: for every base, the lvalue reference to the const-volatile type
renders in full with the name `T` as `T const volatile &` with east placement
and as `const volatile T&` with west placement. -/
theorem stringify_const_volatile_lvalue {β : Type} (b : β) :
    stringify (⟨b, CV.const_volatile, Ref.lvalue⟩ : QType β) Length.full Direction.east "T"
      = "T const volatile &"
    ∧ stringify (⟨b, CV.const_volatile, Ref.lvalue⟩ : QType β) Length.full Direction.west "T"
      = "const volatile T&"
    ∧ (make_qualified_pack (QType.plain b)).elements[7]?
      = some ⟨7, ⟨b, CV.const_volatile, Ref.lvalue⟩⟩ :=
  ⟨rfl, rfl, rfl⟩

/-- C13: for every base, the unqualified type that is not a reference renders
as exactly the name, for every name (the empty one included), verbosity and
placement. -/
theorem stringify_unqualified {β : Type} (b : β) (L : Length) (D : Direction)
    (name : String) :
    stringify (QType.plain b) L D name = name
    ∧ stringify (⟨b, CV.none, Ref.none⟩ : QType β) L D name = name
    ∧ (stringify (QType.plain b) L D name).length = name.length := by
  have h : stringify (QType.plain b) L D name = name := by
    cases hempty : name.isEmpty with
    | true =>
      have hname : name = "" := (String.isEmpty_iff name).1 hempty
      subst hname
      cases L <;> cases D <;> rfl
    | false =>
      cases L <;> cases D <;>
        simp [stringify, hempty, QType.plain, cv_string, cv_string_object, ref_string]
  exact ⟨h, h, by rw [h]⟩

/-- C15: for every type, reference or not, the qualifier word is not empty
exactly when the type is cv-qualified; in full it is `const`, `volatile` or
`const volatile`, in terse `c`, `v` or `cv`, for const, volatile and
const-volatile. -/
theorem cv_string_value {β : Type} (T : QType β) (L : Length) :
    ((cv_string T L).value ≠ "" ↔ T.cv ≠ CV.none)
    ∧ ((cv_string T L).exists = true ↔ T.cv ≠ CV.none)
    ∧ (cv_string T L).value = (cv_string ⟨T.base, T.cv, Ref.none⟩ L).value
    ∧ (cv_string T L).value
        = (match T.cv, L with
          | CV.none, _ => ""
          | CV.const, Length.full => "const"
          | CV.volatile, Length.full => "volatile"
          | CV.const_volatile, Length.full => "const volatile"
          | CV.const, Length.terse => "c"
          | CV.volatile, Length.terse => "v"
          | CV.const_volatile, Length.terse => "cv") := by
  obtain ⟨b, cv, ref⟩ := T
  cases cv <;> cases ref <;> cases L <;>
    exact ⟨by simp [cv_string, cv_string_object], by simp [cv_string, cv_string_object],
      rfl, rfl⟩

/-- C16: for every type, whatever its cv-qualification, the reference marker
is `&` for an lvalue reference, `&&` for an rvalue reference and empty
otherwise, and it is the same in full and in terse. -/
theorem ref_string_value {β : Type} (T : QType β) (L : Length) :
    (ref_string T L).value
        = (match T.ref with
          | Ref.lvalue => "&"
          | Ref.rvalue => "&&"
          | Ref.none => "")
    ∧ (ref_string T Length.full).value = (ref_string T Length.terse).value
    ∧ (ref_string T L).value = (ref_string ⟨T.base, CV.none, T.ref⟩ L).value
    ∧ ((ref_string T L).value ≠ "" ↔ T.ref ≠ Ref.none)
    ∧ ((ref_string T L).exists = true ↔ T.ref ≠ Ref.none) := by
  obtain ⟨b, cv, ref⟩ := T
  cases ref <;> exact ⟨rfl, rfl, rfl, by simp [ref_string], by simp [ref_string]⟩

/-- C18: for every payload, `texcell` returns the empty string for the empty
payload and the payload between `\lstinline!` and `!` otherwise, so that the
result is empty exactly when the payload is. -/
theorem texcell_value (s : String) :
    (s = "" → texcell s = "")
    ∧ (s ≠ "" → texcell s = "\\lstinline!" ++ s ++ "!")
    ∧ (texcell s = "" ↔ s = "") := by
  have h1 : s = "" → texcell s = "" := by
    intro h
    subst h
    rfl
  have h2 : s ≠ "" → texcell s = "\\lstinline!" ++ s ++ "!" := by
    intro h
    simp [texcell, isEmpty_eq_false_of_ne h]
  refine ⟨h1, h2, ?_, h1⟩
  intro h
  by_contra hs
  rw [h2 hs] at h
  have hlen := congrArg String.length h
  simp only [String.length_append] at hlen
  have hone : ("!" : String).length = 1 := rfl
  have hzero : ("" : String).length = 0 := rfl
  omega

/-- With a name that is not empty, a rendering is the name between a text
before it and a text after it, both fixed by the type, the verbosity and the
placement. -/
theorem stringify_around_name {β : Type} (T : QType β) (L : Length) (D : Direction)
    (name : String) (hempty : name.isEmpty = false) :
    stringify T L D name
      = (match D with
          | Direction.east => ""
          | Direction.west =>
            if (cv_string T L).exists then (cv_string T L).value ++ " " else "")
        ++ name
        ++ (match D with
          | Direction.east =>
            if (cv_string T L).exists || (ref_string T L).exists then
              " " ++ (cv_string T L).value
                ++ (if (cv_string T L).exists && (ref_string T L).exists then " " else "")
                ++ (ref_string T L).value
            else ""
          | Direction.west => (ref_string T L).value) := by
  obtain ⟨b, cv, ref⟩ := T
  cases D <;> cases cv <;> cases ref <;> cases L <;>
    simp [stringify, hempty, cv_string, cv_string_object, ref_string, String.append_assoc]

/-- Rearranging a sum around its middle term. -/
theorem add_around (A N B k : Nat) (h : A + B = k) : A + N + B = N + k := by
  omega

/-- The letters `c` and `v` and the ampersands of a rendering are those of the
name, plus one `c` for const, one `v` for volatile, and one ampersand for an
lvalue reference or two for an rvalue reference. -/
theorem stringify_count {β : Type} (T : QType β) (L : Length) (D : Direction)
    (name : String) :
    (stringify T L D name).data.count 'c'
        = name.data.count 'c'
          + (match T.cv with
            | CV.none => 0 | CV.const => 1 | CV.volatile => 0 | CV.const_volatile => 1)
    ∧ (stringify T L D name).data.count 'v'
        = name.data.count 'v'
          + (match T.cv with
            | CV.none => 0 | CV.const => 0 | CV.volatile => 1 | CV.const_volatile => 1)
    ∧ (stringify T L D name).data.count '&'
        = name.data.count '&'
          + (match T.ref with
            | Ref.none => 0 | Ref.lvalue => 1 | Ref.rvalue => 2) := by
  cases hempty : name.isEmpty with
  | true =>
    have hname : name = "" := (String.isEmpty_iff name).1 hempty
    subst hname
    obtain ⟨b, cv, ref⟩ := T
    cases cv <;> cases ref <;> cases L <;> cases D <;> exact ⟨rfl, rfl, rfl⟩
  | false =>
    rw [stringify_around_name T L D name hempty]
    simp only [String.data_append, List.count_append]
    obtain ⟨b, cv, ref⟩ := T
    cases cv <;> cases ref <;> cases L <;> cases D <;>
      exact ⟨add_around _ _ _ _ rfl, add_around _ _ _ _ rfl, add_around _ _ _ _ rfl⟩

/-- Two types with the same rendering, under the same verbosity, placement
and name, have the same cv-qualification and the same reference kind. -/
theorem stringify_eq_imp {β : Type} (T1 T2 : QType β) (L : Length) (D : Direction)
    (name : String) (h : stringify T1 L D name = stringify T2 L D name) :
    T1.cv = T2.cv ∧ T1.ref = T2.ref := by
  obtain ⟨hc1, hv1, hr1⟩ := stringify_count T1 L D name
  obtain ⟨hc2, hv2, hr2⟩ := stringify_count T2 L D name
  rw [h] at hc1 hv1 hr1
  rw [hc2] at hc1
  rw [hv2] at hv1
  rw [hr2] at hr1
  obtain ⟨b1, cv1, ref1⟩ := T1
  obtain ⟨b2, cv2, ref2⟩ := T2
  constructor
  · cases cv1 <;> cases cv2 <;> simp at hc1 hv1 <;> rfl
  · cases ref1 <;> cases ref2 <;> simp at hr1 <;> rfl

/-- C19: for every verbosity, placement and name (the empty one included),
`stringify` is injective on the qualifiers: types with different qualifiers
never render to the same string, and the renderings of the twelve qualifiers
of the fixed order are pairwise distinct. -/
theorem stringify_injective {β : Type} (b : β) (L : Length) (D : Direction)
    (name : String) :
    Function.Injective (fun q : Qualifier => stringify (⟨b, q.cv, q.ref⟩ : QType β) L D name)
    ∧ (fixed_order.map
        (fun q : Qualifier => stringify (⟨b, q.cv, q.ref⟩ : QType β) L D name)).Nodup
    ∧ ((make_qualified_pack (QType.plain b)).elements.map
        (fun e => stringify e.type L D name)).Nodup
    ∧ (∀ T1 T2 : QType β, T1.qualifier ≠ T2.qualifier →
        stringify T1 L D name ≠ stringify T2 L D name) := by
  have hinj : Function.Injective
      (fun q : Qualifier => stringify (⟨b, q.cv, q.ref⟩ : QType β) L D name) := by
    intro q1 q2 h
    obtain ⟨hcv, href⟩ := stringify_eq_imp _ _ L D name h
    obtain ⟨cv1, ref1⟩ := q1
    obtain ⟨cv2, ref2⟩ := q2
    simp only at hcv href
    rw [hcv, href]
  have hnodup := List.Nodup.map hinj (by decide : fixed_order.Nodup)
  refine ⟨hinj, hnodup, ?_, ?_⟩
  · exact hnodup
  · intro T1 T2 hne h
    obtain ⟨hcv, href⟩ := stringify_eq_imp T1 T2 L D name h
    apply hne
    simp [QType.qualifier, hcv, href]

/-! ### Degenerate and single-sequence traversals -/

/-- C17: for zero sequences, `packs<>::for_each` calls the visitor exactly
once, with exactly the accumulated elements in their order: with no element
when there is none accumulated.  The effect on any state is that of this one
call. -/
theorem packs_for_each_empty {α : Type} (x : List (pack_element α)) :
    packs.for_each ([] : List (List α)) record x [] = [x]
    ∧ (packs.for_each ([] : List (List α)) record x []).length = 1
    ∧ packs.calls ([] : List (List α)) = [[]]
    ∧ packs.tuples ([] : List (List α)) x = [x]
    ∧ (∀ (σ : Type) (f : List (pack_element α) → σ → σ) (s : σ),
        packs.for_each ([] : List (List α)) f x s = f x s) :=
  ⟨rfl, rfl, rfl, rfl, fun _ _ _ => rfl⟩

/-- C20: for every pack and every visitor, the cross-product traversal over
that single pack has the effect of the own `for_each` of the pack with the
same visitor, on every state: it makes the same calls, with the same elements
in the same order, each element being passed alone. -/
theorem packs_for_each_single {α : Type} (Args : List α) :
    (∀ (σ : Type) (f : List (pack_element α) → σ → σ) (s : σ),
        packs.for_each [Args] f [] s = (pack Args).for_each (fun e => f [e]) s)
    ∧ packs.calls [Args] = (pack Args).calls.map (fun e => [e])
    ∧ (packs.calls [Args]).length = (pack Args).calls.length
    ∧ (∀ k : Nat, (packs.calls [Args])[k]? = ((pack Args).calls[k]?).map (fun e => [e])) := by
  have hcalls : packs.calls [Args] = (pack Args).calls.map (fun e => [e]) := by
    rw [packs_calls_eq_tuples, packs_tuples_one, pack_calls_eq_elements]
  refine ⟨?_, hcalls, ?_, ?_⟩
  · intro σ f s
    rw [packs_for_each_eq_foldl, packs_tuples_one, List.foldl_map, pack_for_each_eq_foldl]
  · rw [hcalls, List.length_map]
  · intro k
    rw [hcalls, List.getElem?_map]

/-! ### Colors -/

/-- The one-sequence document is the layout colored with the override when
there is one, and with the color table otherwise. -/
theorem texify_one_eq_layout {β : Type} (Args : List (QType β)) (name : String)
    (f : pack_element (QType β) → String) (colored : String) :
    texify_one Args name f colored
      = texify_one.layout (fun T => if colored.isEmpty then texcolor T else colored)
          Args name f := by
  rw [texify_one_layout]
  rfl

/-- The two-sequence document is the layout colored with the override when
there is one, and with the color table otherwise. -/
theorem texify_two_eq_layout {β : Type} (Args0 Args1 : List (QType β)) (name : String)
    (f : pack_element (QType β) → pack_element (QType β) → String) (colored : String) :
    texify_two Args0 Args1 name f colored
      = texify_two.layout (fun T => if colored.isEmpty then texcolor T else colored)
          Args0 Args1 name f := by
  rw [texify_two_layout]
  rfl

/-- C14: for every one- or two-sequence build, with an override `c` that is
not empty every row-header and column-header cell is colored with `c`,
whatever the type; with no override each is colored with the color `texcolor`
gives for its type.  In both cases the document is the same layout, in which
the color enters only as the argument of `texcellcolor` of the header cell of
an element: the cells of the cell function, the separators and the row
terminators do not depend on it.  The header row of the one-sequence table
holds no element and is the same in both cases: its first cell is colored
green by the `bool` overload of `texcell`, its second cell is not colored. -/
theorem texify_color_override {β : Type} (Args Args0 Args1 : List (QType β))
    (name : String) (f : pack_element (QType β) → String)
    (g : pack_element (QType β) → pack_element (QType β) → String) (c : String)
    (hc : c ≠ "") :
    texify_one Args name f c = texify_one.layout (fun _ => c) Args name f
    ∧ texify_one Args name f "" = texify_one.layout texcolor Args name f
    ∧ texify_two Args0 Args1 name g c = texify_two.layout (fun _ => c) Args0 Args1 name g
    ∧ texify_two Args0 Args1 name g "" = texify_two.layout texcolor Args0 Args1 name g
    ∧ (∀ e : pack_element (QType β),
        header_cell c e
          = texcellcolor c ++ texcell (stringify e.type Length.full Direction.west "T")
        ∧ header_cell "" e
          = texcellcolor (texcolor e.type)
            ++ texcell (stringify e.type Length.full Direction.west "T"))
    ∧ texify_one.header_row name
      = ("\\multicolumn\x7b1\x7d\x7b|c||\x7d\x7b"
            ++ (texcellcolor "green" ++ texcell "true") ++ "\x7d")
          ++ " & " ++ texcell name ++ "\\\\ \\hline \\hline" := by
  have hne : c.isEmpty = false := isEmpty_eq_false_of_ne hc
  have hempty : ("" : String).isEmpty = true := rfl
  refine ⟨?_, ?_, ?_, ?_, ?_, rfl⟩
  · rw [texify_one_eq_layout]
    simp only [hne, Bool.false_eq_true, if_false]
  · rw [texify_one_eq_layout]
    simp only [hempty, if_true]
  · rw [texify_two_eq_layout]
    simp only [hne, Bool.false_eq_true, if_false]
  · rw [texify_two_eq_layout]
    simp only [hempty, if_true]
  · intro e
    constructor
    · simp only [header_cell, texcell_colored, hne, Bool.false_eq_true, if_false]
    · rfl

/-- A witness of C14: a two-element pack, with the override `red` and with no
override; the two bodies differ in the colors alone. -/
theorem texify_color_override_witness :
    ("red" : String) ≠ ""
    ∧ texify_one [QType.plain (), add_const_t (QType.plain ())] "name"
          (fun e => toString e.index) "red"
        = texify_one.layout (fun _ => "red")
            [QType.plain (), add_const_t (QType.plain ())] "name" (fun e => toString e.index)
    ∧ String.join ((pack [QType.plain (), add_const_t (QType.plain ())]).elements.map
          (texify_one.data_row (fun e => toString e.index) "red"))
        = "\\cellcolor\x7bred\x7d\\lstinline!T! & 0\\\\ \\hline\n"
          ++ "\\cellcolor\x7bred\x7d\\lstinline!const T! & 1\\\\ \\hline\n"
    ∧ String.join ((pack [QType.plain (), add_const_t (QType.plain ())]).elements.map
          (texify_one.data_row (fun e => toString e.index) ""))
        = "\\cellcolor\x7bblue!20\x7d\\lstinline!T! & 0\\\\ \\hline\n"
          ++ "\\cellcolor\x7bblue!40\x7d\\lstinline!const T! & 1\\\\ \\hline\n" :=
  ⟨by decide,
   (texify_color_override [QType.plain (), add_const_t (QType.plain ())] [] []
      "name" (fun e => toString e.index) (fun _ _ => "") "red" (by decide)).1,
   by decide, by decide⟩

end qualificator
